import Mathlib

/-!
# Nina.ajax: the request multiplexer of `src/lib/ajax.js`

A shallow embedding of `Nina.ajax` (instance numbering, file substitution, payload
assembly, response routing, the `readystatechange` listener and the construction gate)
and of `add` and `remove` of `Nina.UI.taskBar` (`src/lib/taskBar.js`), together with
theorems about them.

Modelling conventions
* JavaScript objects with identity and mutable fields become explicit state.  The call
  descriptors come in two views.  `AjaxRef` holds them by reference: `args` lists object
  identities and a store gives the contents, so that a descriptor object listed twice
  is written once.  `Ajax` holds them by value, a list of records that the loops rewrite;
  this is the batch of distinct descriptor objects, and `beginRequestRef_deref` shows
  that the two views agree there.  The `fileId` property of file objects lives in a heap
  keyed by the file's identity.
* `self.map` holds, for every entry, the method name and a *reference* to the descriptor's
  parameter array (the same array object that `parseFiles` later mutates), so an entry is
  `(method, index of the descriptor)` and is resolved when the map is serialized.
* `self.methodInstances` is a finite map from method names to counts.  Method names follow
  the documented format `<namespace>.<class>.<method>`, so no name is an inherited
  property of the counter object.
* A descriptor is what the constructor documents: a `method` string, a `parameters`
  array, a `procedure` and an optional `context`.  A procedure is described by what an
  application of it does: it returns, or it throws.
* The host provides an `XMLHttpRequest`; callbacks, the log and `request.send` are
  recorded as observable effects.
* For the task bar, `raiseEvent` of `Nina.UI.Widget` is a parameter that tells whether the
  handlers cancel; item objects and their elements are identified by the order of their
  creation.
-/

namespace Nina

/-! ## The program -/

/-- Primitive parameter values: String, Number and Boolean. -/
inductive Scalar where
  | str (s : String)
  | num (n : Int)
  | bool (b : Bool)
  deriving DecidableEq, Repr

/-- Identity of a file object (an element of an input's `files` list). -/
abbrev FileHandle := Nat

/-- A file input element (`type === 'file'`) with its `files` list. -/
structure FileInput where
  files : List FileHandle
  deriving DecidableEq, Repr

/-- An element of an array parameter. -/
inductive Item where
  | scalar (v : Scalar)
  | file (f : FileInput)
  deriving DecidableEq, Repr

/-- One parameter of a call: a primitive, a file input, or an array of these. -/
inductive Param where
  | scalar (v : Scalar)
  | file (f : FileInput)
  | array (items : List Item)
  deriving DecidableEq, Repr

/-- The `procedure` of a descriptor, by what an application of it does: it returns
(`throws` is `none`) or it throws the exception `throws`. -/
structure Procedure where
  throws : Option String
  deriving DecidableEq, Repr

/-- The contents of a call descriptor (`args[x]`).  `procedure` is `none` when the
descriptor has none.  `instanceNumber` and `files` are the properties the multiplexer
attaches; both are `undefined` (`none`) on a fresh descriptor. -/
structure Call where
  method : String
  parameters : List Param
  procedure : Option Procedure
  context : Option Nat
  instanceNumber : Option Nat
  files : Option (List FileHandle)
  deriving DecidableEq, Repr

/-- The `args` argument: one descriptor or an array of descriptors. -/
inductive Args where
  | single (a : Call)
  | batch (l : List Call)
  deriving DecidableEq, Repr

/-- The object `self.methodInstances`: property writes go to the front, reads take the
first binding. -/
abbrev Counters := List (String × Nat)

/-- The `fileId` properties of file objects, keyed by the file's identity. -/
abbrev Heap := List (FileHandle × String)

/-- An entry of `self.map`: the method and a reference to the descriptor whose
`parameters` array was pushed. -/
abbrev MapEntry := String × Nat

/-- One `FormData.append` of the request body. -/
inductive FormPart where
  | id (uuid : Option String)
  | map (entries : List (String × List Param))
  | file (name : Option String) (h : FileHandle)
  deriving DecidableEq, Repr

/-- The fields of `options` that decide control flow here: `delayRequest`
(absent, `true` or `false`). -/
structure Options where
  delayRequest : Option Bool
  deriving DecidableEq, Repr

/-- The closure state of one `Nina.ajax` instance: `args`, the members of `self` and what
has been handed to `request.send`. -/
structure Ajax where
  args : List Call
  options : Options
  heap : Heap
  map : List MapEntry
  methodInstances : Counters
  id : Option String
  sent : List (List FormPart)
  deriving DecidableEq, Repr

/-- String conversion of a possibly undefined number in a concatenation. -/
def jsNum : Option Nat → String
  | some n => toString n
  | none => "undefined"

/-- Lines 176-180: the counter update for one method name. -/
def bumpInstance (mi : Counters) (m : String) : Counters :=
  match mi.lookup m with
  | none => (m, 0) :: mi
  | some n => (m, n + 1) :: mi

/-- Lines 174-187 on descriptors held by value (a batch of distinct descriptor objects):
the numbering loop from index `x` on; returns the rewritten descriptors, the counters
and the map.  `numberLoopRef` is the loop on descriptor objects. -/
def numberLoop (x : Nat) : List Call → Counters → List MapEntry →
    List Call × Counters × List MapEntry
  | [], mi, mp => ([], mi, mp)
  | a :: rest, mi, mp =>
    let mi1 := bumpInstance mi a.method
    let mp1 := mp ++ [(a.method, x)]
    let a1 := { a with instanceNumber := mi1.lookup a.method }
    let r := numberLoop (x + 1) rest mi1 mp1
    (a1 :: r.1, r.2.1, r.2.2)

/-- Lines 250-256. -/
def pushFile (f : FileHandle) (a : Call) : Call :=
  match a.files with
  | some fs => { a with files := some (fs ++ [f]) }
  | none => { a with files := some [f] }

/-- Lines 257-259. -/
def writeFileId (method : String) (inst : Option Nat) (z y : Nat) : String :=
  "file:::" ++ method ++ "_" ++ jsNum inst ++ "_files_" ++ toString z ++ "_" ++ toString y

/-- The loop over `f.files` (lines 131-135 and 144-148) from index `y` on, for a file
input whose identifiers carry `z` as third component. -/
def filesLoop (z : Nat) (y : Nat) : List FileHandle → Call → Heap → List String →
    Call × Heap × List String
  | [], a, h, fa => (a, h, fa)
  | f :: fs, a, h, fa =>
    let a1 := pushFile f a
    let h1 := (f, writeFileId a1.method a1.instanceNumber z y) :: h
    filesLoop z (y + 1) fs a1 h1 (fa ++ [(h1.lookup f).getD "undefined"])

/-- Lines 128-137: the loop over the elements of an array parameter from index `z` on. -/
def itemsLoop (z : Nat) : List Item → Call → Heap → List String →
    Call × Heap × List String
  | [], a, h, fa => (a, h, fa)
  | Item.scalar _ :: is, a, h, fa => itemsLoop (z + 1) is a h fa
  | Item.file f :: is, a, h, fa =>
    let r := filesLoop z 0 f.files a h fa
    itemsLoop (z + 1) is r.1 r.2.1 r.2.2

/-- Lines 125-153: the body of the loop over `t` for parameter `p`; returns the value of
`parameters[t]` afterwards together with the descriptor and the heap. -/
def parseParam (p : Param) (a : Call) (h : Heap) : Param × Call × Heap :=
  match p with
  | Param.array items =>
    let r := itemsLoop 0 items a h []
    if r.2.2.length > 0 then (Param.scalar (Scalar.str (String.join r.2.2)), r.1, r.2.1)
    else (p, r.1, r.2.1)
  | Param.file f =>
    let r := filesLoop 0 0 f.files a h []
    if r.2.2.length > 0 then (Param.scalar (Scalar.str (String.join r.2.2)), r.1, r.2.1)
    else (p, r.1, r.2.1)
  | Param.scalar _ => (p, a, h)

/-- Lines 124-154: the loop over the parameters of descriptor `a`; the first component
is the rewritten parameter array. -/
def paramsLoop : List Param → Call → Heap → List Param × Call × Heap
  | [], a, h => ([], a, h)
  | p :: ps, a, h =>
    let r := parseParam p a h
    let r2 := paramsLoop ps r.2.1 r.2.2
    (r.1 :: r2.1, r2.2.1, r2.2.2)

/-- One iteration of the loop over `x` in `parseFiles`. -/
def parseCall (a : Call) (h : Heap) : Call × Heap :=
  let r := paramsLoop a.parameters a h
  ({ r.2.1 with parameters := r.1 }, r.2.2)

/-- Lines 113-156 on descriptors held by value; `parseFilesRef` is the loop on descriptor
objects. -/
def parseFiles : List Call → Heap → List Call × Heap
  | [], h => ([], h)
  | a :: rest, h =>
    let r := parseCall a h
    let r2 := parseFiles rest r.2
    (r.1 :: r2.1, r2.2)

/-- What `JSON.stringify(self.map)` sees: every entry with the current contents of the
parameter array it references. -/
def resolveMap (args : List Call) (mp : List MapEntry) : List (String × List Param) :=
  mp.map fun e => (e.1, (args[e.2]?.map Call.parameters).getD [])

/-- Lines 240-246: the file parts, one per element of each descriptor's `files`. -/
def fileParts (h : Heap) : List Call → List FormPart
  | [] => []
  | a :: rest =>
    (match a.files with
      | some fs => fs.map fun f => FormPart.file (h.lookup f) f
      | none => []) ++ fileParts h rest

/-- Lines 171-173. -/
def normalize : Args → List Call
  | Args.single a => [a]
  | Args.batch l => l

/-- Lines 165-249 on descriptors held by value: `self.beginRequest`, with `uuid` the
value of `Nina.createUUID()`.  `beginRequestRef` is the function on descriptor objects;
the two agree when no descriptor object is listed twice. -/
def beginRequest (s : Ajax) (uuid : String) : Ajax :=
  let n := numberLoop 0 s.args [] []
  let pf := parseFiles n.1 s.heap
  let d := [FormPart.id (some uuid), FormPart.map (resolveMap pf.1 n.2.2)] ++ fileParts pf.2 pf.1
  { args := pf.1, options := s.options, heap := pf.2, map := n.2.2,
    methodInstances := n.2.1, id := some uuid, sent := s.sent ++ [d] }

/-- Lines 96-106 and 277-280: the constructor.  `heap` is the state of the file objects
reachable from `args`. -/
def ajax (args : Args) (options : Options) (heap : Heap) (uuid : String) : Ajax :=
  let self : Ajax := { args := normalize args, options := options, heap := heap, map := [],
                       methodInstances := [], id := none, sent := [] }
  if options.delayRequest ≠ some false then beginRequest self uuid else self

/-- The transport fields read by the state-change handler. -/
structure Transport where
  readyState : Nat
  status : Nat
  responseText : String
  deriving DecidableEq, Repr

/-- A parsed response object: property read is the first binding of the key. -/
abbrev Envelope (J : Type) := List (String × J)

/-- Observable effects of the state-change handler. -/
inductive Effect (J : Type) where
  | log (msg : String)
  | call (x : Nat) (thisArg : Option Nat) (result : Option J) (allResults : Envelope J)
  deriving DecidableEq, Repr

/-- Line 273: the suffix and the property name read from the response. -/
def lookupKey (mi : Counters) (a : Call) : String :=
  a.method ++
    (match mi.lookup a.method with
      | some n => if n > 0 then "_" ++ jsNum a.instanceNumber else ""
      | none => "")

/-- An exception that leaves the handler, with the effects made before it. -/
structure Thrown (J : Type) where
  error : String
  effects : List (Effect J)
  deriving DecidableEq, Repr

/-- Lines 272-275: the loop over the descriptors from index `x` on.  The result is the
invocations made, in order, and the exception that ended the loop, if any: reading
`apply` of a missing `procedure` throws before anything is invoked, and an exception
thrown by a callback is not caught. -/
def routeLoop {J : Type} (mi : Counters) (all : Envelope J) (x : Nat) :
    List Call → List (Effect J) × Option String
  | [] => ([], none)
  | a :: rest =>
    match a.procedure with
    | none => ([], some "TypeError")
    | some p =>
      match p.throws with
      | some err => ([Effect.call x a.context (all.lookup (lookupKey mi a)) all], some err)
      | none =>
        let r := routeLoop mi all (x + 1) rest
        (Effect.call x a.context (all.lookup (lookupKey mi a)) all :: r.1, r.2)

/-- Lines 260-276: the default state-change handler.  `parse` is `JSON.parse` (`none`
when it throws); the result is the effects in order when the handler returns, and the
exception with the effects made before it when it throws. -/
def readyStateChange {J : Type} (parse : String → Option (Envelope J)) (s : Ajax)
    (r : Transport) : Except (Thrown J) (List (Effect J)) :=
  if r.readyState ≠ 4 ∨ r.status = 0 then Except.ok []
  else if r.status ≠ 200 then
    Except.ok [Effect.log ("Nina.ajax request returned a status of " ++ toString r.status
      ++ ":\n" ++ r.responseText)]
  else
    match parse r.responseText with
    | none => Except.error { error := "SyntaxError", effects := [] }
    | some all =>
      match routeLoop s.methodInstances all 0 s.args with
      | (effects, none) => Except.ok effects
      | (effects, some err) => Except.error { error := err, effects := effects }

/-- What a user callback returned: `undefined` or a primitive value. -/
inductive Returned where
  | undefined
  | value (v : Scalar)
  deriving DecidableEq, Repr

/-- A user callback `options.readyStateChange`, taken to return normally: its result for
the argument list it is applied to (`some e` the event `e`, `none` no argument). -/
abbrev UserCallback := Option Nat → Returned

/-- What the `readystatechange` listener does, in order: applications of
`options.readyStateChange` and runs of the default handler with their effects. -/
inductive Step (J : Type) where
  | user (arg : Option Nat)
  | default (effects : List (Effect J))
  deriving DecidableEq, Repr

/-- Lines 218-227: the `readystatechange` listener for the event `e`, with `user` the
value of `self.options.readyStateChange` (`none` when it is not a function). -/
def readyStateListener {J : Type} (user : Option UserCallback)
    (parse : String → Option (Envelope J)) (s : Ajax) (r : Transport) (e : Nat) :
    Except (Thrown J) (List (Step J)) :=
  match user with
  | none =>
    match readyStateChange parse s r with
    | Except.ok effects => Except.ok [Step.default effects]
    | Except.error err => Except.error err
  | some f =>
    if f (some e) ≠ Returned.value (Scalar.bool false) then
      Except.ok [Step.user (some e), Step.user none]
    else Except.ok [Step.user (some e)]

namespace UI.taskBar

/-- An item of the task bar (lines 315-322).  `uid` stands for the identity of the item
object; the `div` element created for the item is identified by the same number. -/
structure TaskBarItem where
  uid : Nat
  obj : Nat
  click : Option Nat
  text : String
  mouseover : Option Nat
  mouseout : Option Nat
  deriving DecidableEq, Repr

/-- The state of the task bar that `add` and `remove` work on: `self.items` (the array
also published as `publicMembers.items`), the child elements of `self.taskBar` in
document order, and the number of item objects created so far.  Styles and rectangles,
which `redraw`, `setRect` and `stylize` write, are not part of it. -/
structure TaskBar where
  items : List TaskBarItem
  children : List Nat
  allocated : Nat
  deriving DecidableEq, Repr

/-- What `add` returns: the new item, or `self` when the `addItem` event was cancelled. -/
inductive AddResult where
  | item (i : TaskBarItem)
  | self
  deriving DecidableEq, Repr

/-- Lines 45 and 242: the task bar after construction, without items. -/
def init : TaskBar :=
  { items := [], children := [], allocated := 0 }

/-- Lines 315-322: the item object that `add` creates, a new object with a new `div`. -/
def newItem (s : TaskBar) (obj : Nat) (click : Option Nat) (text : String)
    (over out : Option Nat) : TaskBarItem :=
  { uid := s.allocated, obj := obj, click := click, text := text, mouseover := over,
    mouseout := out }

/-- Lines 313-360: `self.add`.  `raiseEvent name item` tells whether the handlers of the
event `name` raised for `item` cancel the operation. -/
def add (raiseEvent : String → TaskBarItem → Bool) (s : TaskBar) (obj : Nat)
    (click : Option Nat) (text : String) (over out : Option Nat) : TaskBar × AddResult :=
  let item := newItem s obj click text over out
  if raiseEvent "addItem" item then
    ({ s with allocated := s.allocated + 1 }, AddResult.self)
  else
    ({ items := s.items ++ [item], children := s.children ++ [item.uid],
       allocated := s.allocated + 1 }, AddResult.item item)

/-- Lines 364-370: the loop of `self.remove` from index `x` on, for at most `fuel`
iterations.  The result is `none` when the iterations do not suffice, the exception of
`removeChild` when the element is not a child, and otherwise the state in which `remove`
returns. -/
def removeLoop (raiseEvent : String → TaskBarItem → Bool) (item : TaskBarItem) :
    Nat → Nat → TaskBar → Option (Except String TaskBar)
  | 0, x, s => if s.items.length > x then none else some (Except.ok s)
  | fuel + 1, x, s =>
    match s.items[x]? with
    | none => some (Except.ok s)
    | some y =>
      if y.uid = item.uid then
        if raiseEvent "removeItem" y then some (Except.ok s)
        else if item.uid ∈ s.children then
          removeLoop raiseEvent item fuel (x + 1)
            { s with children := s.children.erase item.uid, items := s.items.eraseIdx x }
        else some (Except.error "NotFoundError")
      else removeLoop raiseEvent item fuel (x + 1) s

/-- Lines 361-372: `self.remove`. -/
def remove (raiseEvent : String → TaskBarItem → Bool) (s : TaskBar) (item : TaskBarItem) :
    Option (Except String TaskBar) :=
  removeLoop raiseEvent item s.items.length 0 s

end UI.taskBar

/-- The descriptor objects: the contents of each object, by the identity of the object. -/
abbrev Store := Nat → Call

/-- A write to the object `o`. -/
def Store.set (objs : Store) (o : Nat) (c : Call) : Store :=
  fun k => if k = o then c else objs k

/-- The closure state of one `Nina.ajax` instance with the descriptors held by reference:
`args` lists the identities of the descriptor objects in order (one object may be listed
more than once) and `objs` gives their contents.  `Ajax` holds the descriptors by value,
which describes a batch of distinct descriptor objects. -/
structure AjaxRef where
  args : List Nat
  objs : Store
  options : Options
  heap : Heap
  map : List MapEntry
  methodInstances : Counters
  id : Option String
  sent : List (List FormPart)

/-- The state as reading code sees it: `args[x]` read through the reference. -/
def AjaxRef.deref (s : AjaxRef) : Ajax :=
  { args := s.args.map s.objs, options := s.options, heap := s.heap, map := s.map,
    methodInstances := s.methodInstances, id := s.id, sent := s.sent }

/-- Lines 174-187 on descriptor objects: the numbering loop from index `x` on.  Line 186
writes `instanceNumber` on the object listed at `x`, so the write is seen at every index
that lists this object. -/
def numberLoopRef (x : Nat) : List Nat → Counters → List MapEntry → Store →
    Store × Counters × List MapEntry
  | [], mi, mp, objs => (objs, mi, mp)
  | o :: rest, mi, mp, objs =>
    let mi1 := bumpInstance mi (objs o).method
    let mp1 := mp ++ [((objs o).method, x)]
    let objs1 := objs.set o { objs o with instanceNumber := mi1.lookup (objs o).method }
    numberLoopRef (x + 1) rest mi1 mp1 objs1

/-- Lines 113-156 on descriptor objects: each iteration of the loop over `x` works on
the object listed at `x` as it is by then. -/
def parseFilesRef : List Nat → Store → Heap → Store × Heap
  | [], objs, h => (objs, h)
  | o :: rest, objs, h =>
    let r := parseCall (objs o) h
    parseFilesRef rest (objs.set o r.1) r.2

/-- Lines 165-249 on descriptor objects: `self.beginRequest`. -/
def beginRequestRef (s : AjaxRef) (uuid : String) : AjaxRef :=
  let n := numberLoopRef 0 s.args [] [] s.objs
  let pf := parseFilesRef s.args n.1 s.heap
  let d := [FormPart.id (some uuid), FormPart.map (resolveMap (s.args.map pf.1) n.2.2)] ++
    fileParts pf.2 (s.args.map pf.1)
  { args := s.args, objs := pf.1, options := s.options, heap := pf.2, map := n.2.2,
    methodInstances := n.2.1, id := some uuid, sent := s.sent ++ [d] }

/-- Lines 260-276 on descriptor objects: the default handler reads the descriptors
through `args`. -/
def readyStateChangeRef {J : Type} (parse : String → Option (Envelope J)) (s : AjaxRef)
    (r : Transport) : Except (Thrown J) (List (Effect J)) :=
  readyStateChange parse s.deref r

/-! ## Closed forms and predicates used in the statements -/

/-- The counters agree with the method names `pre` seen so far: a name seen `k + 1` times
is bound to `k`, a name not seen is unbound. -/
def CountersAgree (pre : List String) (mi : Counters) : Prop :=
  ∀ m : String, mi.lookup m = if pre.count m = 0 then none else some (pre.count m - 1)

/-- The fields of a descriptor that identify the call towards the response handler. -/
def Call.ident (a : Call) : String × Option Nat × Option Nat × Option Procedure :=
  (a.method, a.instanceNumber, a.context, a.procedure)

/-- The descriptor has a procedure, and the procedure returns. -/
abbrev Call.returns (a : Call) : Prop :=
  a.procedure = some { throws := none }

/-- An effect is a callback invocation. -/
def Effect.isCall {J : Type} : Effect J → Bool
  | Effect.call _ _ _ _ => true
  | Effect.log _ => false

/-- The descriptor after `pushFile` for each of `fs` in turn. -/
def addFiles (a : Call) (fs : List FileHandle) : Call :=
  fs.foldl (fun b f => pushFile f b) a

/-- The elements of `a.files`, none when the property is undefined. -/
def Call.fileList (a : Call) : List FileHandle :=
  a.files.getD []

/-- The files of one input from index `y` on, each with the identifier written for it. -/
def inputPairs (m : String) (inst : Option Nat) (z y : Nat) (fs : List FileHandle) :
    List (FileHandle × String) :=
  (fs.enumFrom y).map fun e => (e.2, writeFileId m inst z e.1)

/-- The files found in the elements of an array parameter from index `z` on. -/
def itemPairs (m : String) (inst : Option Nat) : Nat → List Item → List (FileHandle × String)
  | _, [] => []
  | z, Item.scalar _ :: is => itemPairs m inst (z + 1) is
  | z, Item.file f :: is => inputPairs m inst z 0 f.files ++ itemPairs m inst (z + 1) is

/-- The files found in one parameter, each with its identifier. -/
def paramPairs (m : String) (inst : Option Nat) : Param → List (FileHandle × String)
  | Param.scalar _ => []
  | Param.file f => inputPairs m inst 0 0 f.files
  | Param.array items => itemPairs m inst 0 items

/-- The value of a parameter slot after `parseFiles`. -/
def substParam (m : String) (inst : Option Nat) (p : Param) : Param :=
  if (paramPairs m inst p).length > 0 then
    Param.scalar (Scalar.str (String.join ((paramPairs m inst p).map Prod.snd)))
  else p

/-- The files found in the parameters of one call, in the order they are visited. -/
def callPairs (a : Call) : List (FileHandle × String) :=
  a.parameters.flatMap (paramPairs a.method a.instanceNumber)

/-- The descriptor after its iteration of `parseFiles`. -/
def substCall (a : Call) : Call :=
  { addFiles a ((callPairs a).map Prod.fst) with
    parameters := a.parameters.map (substParam a.method a.instanceNumber) }

/-- The files of a whole batch with their identifiers, in the order they are visited. -/
def batchPairs (l : List Call) : List (FileHandle × String) :=
  l.flatMap callPairs

/-- The number the numbering loop gives to the descriptor at index `i` of `l`. -/
def instanceAt (l : List Call) (i : Nat) (a : Call) : Nat :=
  ((l.take i).map Call.method).count a.method

/-- The descriptors after the numbering loop. -/
def numbered (l : List Call) : List Call :=
  l.enum.map fun e => { e.2 with instanceNumber := some (instanceAt l e.1 e.2) }

/-- An array element is a file input. -/
def Item.isFile : Item → Bool
  | Item.file _ => true
  | Item.scalar _ => false

/-- The file handles of an array element. -/
def Item.handles : Item → List FileHandle
  | Item.file f => f.files
  | Item.scalar _ => []

/-- A parameter is a file input or an array containing one. -/
def Param.hasFile : Param → Bool
  | Param.scalar _ => false
  | Param.file _ => true
  | Param.array items => items.any Item.isFile

/-- The file handles a parameter carries, in the order `parseFiles` visits them. -/
def Param.handles : Param → List FileHandle
  | Param.scalar _ => []
  | Param.file f => f.files
  | Param.array items => items.flatMap Item.handles

/-- The number written by a list of decimal digit characters. -/
def digitsValue (ds : List Char) : Nat :=
  ds.foldl (fun acc c => 10 * acc + (c.toNat - 48)) 0

/-- At most one parameter of the call carries a file. -/
abbrev Call.oneFileParam (a : Call) : Prop :=
  (a.parameters.countP fun p => decide (p.handles ≠ [])) ≤ 1

/-- The file handles of a batch in the order `parseFiles` visits them. -/
def batchHandles (l : List Call) : List FileHandle :=
  l.flatMap fun a => a.parameters.flatMap Param.handles

/-- A step of the listener is a run of the default handler. -/
def Step.isDefault {J : Type} : Step J → Bool
  | Step.default _ => true
  | Step.user _ => false

namespace UI.taskBar

/-- The task bar states reached from the constructed task bar through `add` and
`remove`, whatever the event handlers answer. -/
inductive Reachable : TaskBar → Prop where
  | init : Reachable init
  | add (raiseEvent : String → TaskBarItem → Bool) (s : TaskBar) (obj : Nat)
      (click : Option Nat) (text : String) (over out : Option Nat) :
      Reachable s → Reachable (add raiseEvent s obj click text over out).1
  | remove (raiseEvent : String → TaskBarItem → Bool) (s s2 : TaskBar) (item : TaskBarItem) :
      Reachable s → remove raiseEvent s item = some (Except.ok s2) → Reachable s2

/-- The items are distinct objects created earlier, and the child elements of the bar
are their elements in the same order. -/
def Consistent (s : TaskBar) : Prop :=
  (s.items.map TaskBarItem.uid).Nodup ∧ s.children = s.items.map TaskBarItem.uid ∧
    ∀ i ∈ s.items, i.uid < s.allocated

end UI.taskBar

/-- A file input inside an array carries one or more file handles. -/
def Item.wellFormed : Item → Bool
  | Item.file f => decide (f.files ≠ [])
  | Item.scalar _ => true

/-- Every file input of the parameter is a file reference of the data model: an input
carrying one or more file handles. -/
def Param.wellFormed : Param → Bool
  | Param.scalar _ => true
  | Param.file f => decide (f.files ≠ [])
  | Param.array items => items.all Item.wellFormed

/-! ## Sample inputs -/

/-- A fresh descriptor without context, with a procedure that returns. -/
def mkCall (method : String) (parameters : List Param) : Call :=
  { method := method, parameters := parameters, procedure := some { throws := none },
    context := none, instanceNumber := none, files := none }

/-- A fresh instance holding the descriptors `l`, before any request. -/
def fresh (l : List Call) : Ajax :=
  { args := l, options := { delayRequest := none }, heap := [], map := [],
    methodInstances := [], id := none, sent := [] }

/-- Two calls of one method followed by a call of another. -/
def twoFooBar : List Call :=
  [mkCall "Foo.Bar" [], mkCall "Foo.Bar" [], mkCall "Test.Ping" []]

/-- A response object with entries under the bare name and under both suffixed names. -/
def sampleEnvelope : Envelope Nat :=
  [("Foo.Bar", 10), ("Foo.Bar_0", 20), ("Foo.Bar_1", 30)]

/-- A terminal transport state with status 200. -/
def okTransport : Transport :=
  { readyState := 4, status := 200, responseText := "" }

/-- A terminal transport state with status 500. -/
def errorTransport : Transport :=
  { readyState := 4, status := 500, responseText := "Internal Server Error" }

/-- The upload example of the constructor's documentation: a path and one file input
holding one file. -/
def uploadExample : List Call :=
  [mkCall "FileManager.Upload" [Param.scalar (Scalar.str "~\\"), Param.file { files := [7] }]]

/-- A call whose only parameter is a file input in which no file has been selected. -/
def emptyInputExample : List Call :=
  [mkCall "FileManager.Upload" [Param.file { files := [] }]]

/-- One call with two file inputs as separate parameters, one file each. -/
def twoInputsExample : List Call :=
  [mkCall "FileManager.Upload" [Param.file { files := [1] }, Param.file { files := [2] }]]

/-- Two calls that are given the same file input. -/
def sharedInputExample : List Call :=
  [mkCall "Docs.Put" [Param.file { files := [1] }],
   mkCall "Logs.Put" [Param.file { files := [1] }]]

/-- The multi-file example of the constructor's documentation: an array of paths and an
array of file inputs, here holding one and two files. -/
def uploadFilesExample : List Call :=
  [mkCall "FileManager.UploadFiles"
    [Param.array [Item.scalar (Scalar.str "~\\"), Item.scalar (Scalar.str "~\\")],
     Param.array [Item.file { files := [1] }, Item.file { files := [2, 3] }]]]

/-- Two calls of `Foo.Bar` next to a call of a method named `Foo.Bar_1`. -/
def keyClashExample : List Call :=
  [mkCall "Foo.Bar" [], mkCall "Foo.Bar" [], mkCall "Foo.Bar_1" []]

namespace UI.taskBar

/-- Event handlers that never cancel. -/
def noCancel : String → TaskBarItem → Bool :=
  fun _ _ => false

/-- A task bar to which two items were added and whose first item was then removed. -/
def sampleBar : TaskBar :=
  { items := [{ uid := 1, obj := 11, click := none, text := "Mail", mouseover := none,
                mouseout := none }],
    children := [1], allocated := 2 }

end UI.taskBar

/-- Two calls, the first of which has no procedure. -/
def noProcedureExample : List Call :=
  [{ mkCall "Alpha.One" [] with procedure := none }, mkCall "Beta.Two" []]

/-- Two calls, the first of which has a procedure that throws. -/
def throwingExample : List Call :=
  [{ mkCall "Alpha.One" [] with procedure := some { throws := some "Error" } },
   mkCall "Beta.Two" []]

/-- A fresh instance whose `args` lists the descriptor objects `refs`, with contents
`objs`, before any request. -/
def freshRef (refs : List Nat) (objs : Store) : AjaxRef :=
  { args := refs, objs := objs, options := { delayRequest := none }, heap := [], map := [],
    methodInstances := [], id := none, sent := [] }

/-- The objects 0 and 1 are calls of `Foo.Bar`, every other object a call of
`Test.Ping`. -/
def fooBarObjects : Store :=
  fun o => if o < 2 then mkCall "Foo.Bar" [] else mkCall "Test.Ping" []

/-! ## Instance numbering -/

theorem countersAgree_nil : CountersAgree [] [] := by
  intro m
  simp

theorem lookup_bumpInstance (pre : List String) (mi : Counters) (m : String)
    (h : CountersAgree pre mi) : (bumpInstance mi m).lookup m = some (pre.count m) := by
  unfold bumpInstance
  have hm := h m
  by_cases h0 : pre.count m = 0
  · rw [if_pos h0] at hm
    rw [hm]
    simp [List.lookup, h0]
  · rw [if_neg h0] at hm
    rw [hm]
    simp only [List.lookup, beq_self_eq_true]
    congr 1
    omega

theorem countersAgree_bump (pre : List String) (mi : Counters) (m : String)
    (h : CountersAgree pre mi) : CountersAgree (pre ++ [m]) (bumpInstance mi m) := by
  intro k
  by_cases hk : k = m
  · subst hk
    rw [lookup_bumpInstance pre mi k h]
    simp
  · have hk2 : (k == m) = false := by simpa using hk
    have hmk : ¬ m = k := fun e => hk e.symm
    have hcount : (pre ++ [m]).count k = pre.count k := by
      simp [List.count_append, List.count_cons, hmk]
    rw [hcount, ← h k]
    unfold bumpInstance
    cases mi.lookup m <;> simp [List.lookup, hk2]

theorem numberLoop_length (rest : List Call) :
    ∀ (x : Nat) (mi : Counters) (mp : List MapEntry),
      (numberLoop x rest mi mp).1.length = rest.length := by
  induction rest with
  | nil => intro x mi mp; rfl
  | cons a rest ih => intro x mi mp; simp [numberLoop, ih]

/-- The numbering loop gives the descriptor at position `i` the number of earlier
occurrences of its method name, counting the names `pre` seen before the loop. -/
theorem numberLoop_instance (rest : List Call) :
    ∀ (pre : List String) (x : Nat) (mi : Counters) (mp : List MapEntry) (i : Nat) (a : Call),
      CountersAgree pre mi → rest[i]? = some a →
      (numberLoop x rest mi mp).1[i]? =
        some { a with
          instanceNumber := some ((pre ++ (rest.take i).map Call.method).count a.method) } := by
  induction rest with
  | nil => intro pre x mi mp i a _ h; simp at h
  | cons b rest ih =>
    intro pre x mi mp i a hinv h
    cases i with
    | zero =>
      simp only [List.getElem?_cons_zero, Option.some.injEq] at h
      subst h
      simp [numberLoop, lookup_bumpInstance pre mi b.method hinv]
    | succ i =>
      simp only [List.getElem?_cons_succ] at h
      have := ih (pre ++ [b.method]) (x + 1) (bumpInstance mi b.method)
        (mp ++ [(b.method, x)]) i a (countersAgree_bump pre mi b.method hinv) h
      simp only [numberLoop, List.getElem?_cons_succ, this]
      simp [List.append_assoc]

theorem numberLoop_counters (rest : List Call) :
    ∀ (pre : List String) (x : Nat) (mi : Counters) (mp : List MapEntry),
      CountersAgree pre mi →
      CountersAgree (pre ++ rest.map Call.method) (numberLoop x rest mi mp).2.1 := by
  induction rest with
  | nil => intro pre x mi mp h; simpa [numberLoop] using h
  | cons b rest ih =>
    intro pre x mi mp h
    have := ih (pre ++ [b.method]) (x + 1) (bumpInstance mi b.method)
      (mp ++ [(b.method, x)]) (countersAgree_bump pre mi b.method h)
    simpa [numberLoop, List.append_assoc] using this

theorem numberLoop_map (rest : List Call) :
    ∀ (x : Nat) (mi : Counters) (mp : List MapEntry),
      (numberLoop x rest mi mp).2.2 =
        mp ++ (rest.enumFrom x).map fun e => (e.2.method, e.1) := by
  induction rest with
  | nil => intro x mi mp; simp [numberLoop]
  | cons b rest ih =>
    intro x mi mp
    simp [numberLoop, ih, List.enumFrom, List.append_assoc]

/-! ## What `parseFiles` leaves alone -/

@[simp] theorem pushFile_method (f : FileHandle) (a : Call) :
    (pushFile f a).method = a.method := by
  unfold pushFile; cases a.files <;> rfl

@[simp] theorem pushFile_instanceNumber (f : FileHandle) (a : Call) :
    (pushFile f a).instanceNumber = a.instanceNumber := by
  unfold pushFile; cases a.files <;> rfl

@[simp] theorem pushFile_context (f : FileHandle) (a : Call) :
    (pushFile f a).context = a.context := by
  unfold pushFile; cases a.files <;> rfl

@[simp] theorem pushFile_procedure (f : FileHandle) (a : Call) :
    (pushFile f a).procedure = a.procedure := by
  unfold pushFile; cases a.files <;> rfl

@[simp] theorem pushFile_ident (f : FileHandle) (a : Call) :
    (pushFile f a).ident = a.ident := by
  simp [Call.ident]

@[simp] theorem filesLoop_ident (fs : List FileHandle) :
    ∀ (z y : Nat) (a : Call) (h : Heap) (fa : List String),
      (filesLoop z y fs a h fa).1.ident = a.ident := by
  induction fs with
  | nil => intro z y a h fa; rfl
  | cons f fs ih => intro z y a h fa; simp [filesLoop, ih]

@[simp] theorem itemsLoop_ident (is : List Item) :
    ∀ (z : Nat) (a : Call) (h : Heap) (fa : List String),
      (itemsLoop z is a h fa).1.ident = a.ident := by
  induction is with
  | nil => intro z a h fa; rfl
  | cons i is ih =>
    intro z a h fa
    cases i with
    | scalar v => simp [itemsLoop, ih]
    | file f => simp [itemsLoop, ih]

@[simp] theorem parseParam_ident (p : Param) (a : Call) (h : Heap) :
    (parseParam p a h).2.1.ident = a.ident := by
  cases p with
  | scalar v => rfl
  | file f => simp only [parseParam]; split <;> simp
  | array items => simp only [parseParam]; split <;> simp

@[simp] theorem paramsLoop_ident (ps : List Param) :
    ∀ (a : Call) (h : Heap), (paramsLoop ps a h).2.1.ident = a.ident := by
  induction ps with
  | nil => intro a h; rfl
  | cons p ps ih => intro a h; simp [paramsLoop, ih]

@[simp] theorem parseCall_ident (a : Call) (h : Heap) :
    (parseCall a h).1.ident = a.ident := by
  have := paramsLoop_ident a.parameters a h
  simpa [parseCall, Call.ident] using this

theorem parseFiles_ident (l : List Call) :
    ∀ h : Heap, (parseFiles l h).1.map Call.ident = l.map Call.ident := by
  induction l with
  | nil => intro h; rfl
  | cons a l ih => intro h; simp [parseFiles, ih]

/-! ## The state after `beginRequest` -/

theorem beginRequest_args (s : Ajax) (uuid : String) :
    (beginRequest s uuid).args = (parseFiles (numberLoop 0 s.args [] []).1 s.heap).1 := rfl

theorem beginRequest_methodInstances (s : Ajax) (uuid : String) :
    (beginRequest s uuid).methodInstances = (numberLoop 0 s.args [] []).2.1 := rfl

theorem get?_of_map_eq {α β : Type} (f : α → β) (l1 l2 : List α)
    (h : l1.map f = l2.map f) (i : Nat) : l1[i]?.map f = l2[i]?.map f := by
  rw [← List.getElem?_map, ← List.getElem?_map, h]

/-- After `beginRequest` the descriptor at position `i` has the method and context it had
before and carries the number of earlier descriptors with its method name. -/
theorem beginRequest_ident (s : Ajax) (uuid : String) (i : Nat) (a : Call)
    (h : s.args[i]? = some a) :
    (beginRequest s uuid).args[i]?.map Call.ident =
      some (a.method, some (((s.args.take i).map Call.method).count a.method), a.context,
        a.procedure) := by
  rw [beginRequest_args,
    get?_of_map_eq Call.ident _ _ (parseFiles_ident (numberLoop 0 s.args [] []).1 s.heap) i,
    numberLoop_instance s.args [] 0 [] [] i a countersAgree_nil h]
  simp [Call.ident]

theorem beginRequest_args_length (s : Ajax) (uuid : String) :
    (beginRequest s uuid).args.length = s.args.length := by
  have h := congrArg List.length (parseFiles_ident (numberLoop 0 s.args [] []).1 s.heap)
  simp only [List.length_map] at h
  rw [beginRequest_args, h, numberLoop_length]

theorem beginRequest_countersAgree (s : Ajax) (uuid : String) :
    CountersAgree (s.args.map Call.method) (beginRequest s uuid).methodInstances := by
  have := numberLoop_counters s.args [] 0 [] [] countersAgree_nil
  simpa [beginRequest_methodInstances] using this

/-- On descriptors held by value (distinct descriptor objects): after `beginRequest`, the
`instanceNumber` of the descriptor at index `i` is the number of descriptors at indices
below `i` in the batch that have the same method name. -/
theorem beginRequest_instanceNumber (s : Ajax) (uuid : String) (i : Nat) (a : Call)
    (h : s.args[i]? = some a) :
    (beginRequest s uuid).args[i]?.map Call.instanceNumber =
      some (some ((s.args.take i).countP fun b => b.method = a.method)) := by
  have hi := beginRequest_ident s uuid i a h
  cases hg : (beginRequest s uuid).args[i]? with
  | none => rw [hg] at hi; simp at hi
  | some b =>
    rw [hg] at hi
    simp only [Option.map_some', Option.some.injEq, Call.ident, Prod.mk.injEq] at hi
    simp only [Option.map_some', hi.2.1, Option.some.injEq]
    rw [List.count_eq_countP, List.countP_map]
    congr 1

/-! ## Lookup keys -/

theorem lookupKey_of_lookup_zero (mi : Counters) (a : Call)
    (h : mi.lookup a.method = some 0) : lookupKey mi a = a.method := by
  simp [lookupKey, h]

theorem lookupKey_of_lookup_pos (mi : Counters) (a : Call) (n k : Nat)
    (h : mi.lookup a.method = some (n + 1)) (hk : a.instanceNumber = some k) :
    lookupKey mi a = a.method ++ "_" ++ toString k := by
  simp [lookupKey, h, hk, jsNum, String.append_assoc]

/-- On descriptors held by value (distinct descriptor objects): the lookup key of the
call at index `i` after `beginRequest`, with the instance number as the number of
earlier calls of the method. -/
theorem lookupKey_beginRequest (s : Ajax) (uuid : String) (i : Nat) (a : Call)
    (h : (beginRequest s uuid).args[i]? = some a) :
    ((s.args.countP fun b => b.method = a.method) = 1 →
        lookupKey (beginRequest s uuid).methodInstances a = a.method) ∧
    (1 < (s.args.countP fun b => b.method = a.method) →
        a.instanceNumber = some ((s.args.take i).countP fun b => b.method = a.method) ∧
        lookupKey (beginRequest s uuid).methodInstances a =
          a.method ++ "_" ++
            toString ((s.args.take i).countP fun b => b.method = a.method)) ∧
    ((s.args.map Call.method).Nodup →
        lookupKey (beginRequest s uuid).methodInstances a = a.method) := by
  have hlen : i < s.args.length := by
    rw [← beginRequest_args_length s uuid]
    exact (List.getElem?_eq_some.mp h).1
  obtain ⟨a0, ha0⟩ : ∃ a0, s.args[i]? = some a0 := ⟨s.args[i], List.getElem?_eq_getElem hlen⟩
  have hid := beginRequest_ident s uuid i a0 ha0
  rw [h] at hid
  simp only [Option.map_some', Option.some.injEq, Call.ident, Prod.mk.injEq] at hid
  obtain ⟨hm, hin, _⟩ := hid
  have hcnt : ∀ l : List Call, (l.map Call.method).count a.method =
      l.countP fun b => b.method = a.method := by
    intro l
    rw [List.count_eq_countP, List.countP_map]
    congr 1
  have hagree := beginRequest_countersAgree s uuid a.method
  rw [hcnt] at hagree
  rw [← hm, hcnt] at hin
  have hmem : a.method ∈ s.args.map Call.method :=
    List.mem_map.mpr ⟨a0, List.getElem?_mem ha0, hm.symm⟩
  have hone : (s.args.countP fun b => b.method = a.method) = 1 →
      lookupKey (beginRequest s uuid).methodInstances a = a.method := by
    intro h1
    apply lookupKey_of_lookup_zero
    rw [hagree, h1]
    rfl
  refine ⟨hone, ?_, ?_⟩
  · intro h1
    refine ⟨hin, ?_⟩
    apply lookupKey_of_lookup_pos _ a ((s.args.countP fun b => b.method = a.method) - 2) _ _ hin
    rw [hagree, if_neg (by omega)]
    congr 1
    omega
  · intro hnd
    apply hone
    rw [← hcnt]
    exact List.count_eq_one_of_mem hnd hmem

/-! ## The default state-change handler -/

theorem routeLoop_eq {J : Type} (mi : Counters) (all : Envelope J) (l : List Call)
    (hret : ∀ a ∈ l, a.returns) :
    ∀ x : Nat, routeLoop mi all x l =
      ((l.enumFrom x).map fun e =>
        Effect.call e.1 e.2.context (all.lookup (lookupKey mi e.2)) all, none) := by
  induction l with
  | nil => intro x; rfl
  | cons a l ih =>
    intro x
    have ha : a.procedure = some { throws := none } := hret a (List.mem_cons_self _ _)
    simp [routeLoop, ha, ih (fun b hb => hret b (List.mem_cons_of_mem _ hb)), List.enumFrom]

theorem readyStateChange_success {J : Type} (parse : String → Option (Envelope J)) (s : Ajax)
    (r : Transport) (all : Envelope J) (h4 : r.readyState = 4) (h200 : r.status = 200)
    (hp : parse r.responseText = some all) (hret : ∀ a ∈ s.args, a.returns) :
    readyStateChange parse s r =
      Except.ok ((s.args.enumFrom 0).map fun e =>
        Effect.call e.1 e.2.context (all.lookup (lookupKey s.methodInstances e.2)) all) := by
  simp [readyStateChange, h4, h200, hp, routeLoop_eq _ _ _ hret]

/-- After `beginRequest` on a batch of two calls of the method `m`, the descriptors read
the keys with suffix 0 and suffix 1. -/
theorem twoCalls_keys (s : Ajax) (uuid : String) (a1 a2 : Call) (m : String)
    (hs : s.args = [a1, a2]) (h1 : a1.method = m) (h2 : a2.method = m) :
    ∃ b1 b2 : Call, (beginRequest s uuid).args = [b1, b2] ∧
      b1.context = a1.context ∧ b2.context = a2.context ∧
      b1.procedure = a1.procedure ∧ b2.procedure = a2.procedure ∧
      lookupKey (beginRequest s uuid).methodInstances b1 = m ++ "_" ++ toString 0 ∧
      lookupKey (beginRequest s uuid).methodInstances b2 = m ++ "_" ++ toString 1 := by
  have hlen := beginRequest_args_length s uuid
  have i0 := beginRequest_ident s uuid 0 a1 (by simp [hs])
  have i1 := beginRequest_ident s uuid 1 a2 (by simp [hs])
  have hag := beginRequest_countersAgree s uuid m
  rw [hs] at hlen i0 i1 hag
  simp only [List.map_cons, List.map_nil, h1, h2, List.count_cons_self, List.count_nil] at hag
  match hargs : (beginRequest s uuid).args, hlen with
  | [b1, b2], _ =>
    rw [hargs] at i0 i1
    simp [Call.ident, h1, h2] at i0 i1
    refine ⟨b1, b2, rfl, i0.2.2.1, i1.2.2.1, i0.2.2.2, i1.2.2.2, ?_, ?_⟩
    · rw [← i0.1]
      exact lookupKey_of_lookup_pos _ b1 0 0 (by rw [i0.1]; exact hag) i0.2.1
    · rw [← i1.1]
      exact lookupKey_of_lookup_pos _ b2 0 1 (by rw [i1.1]; exact hag) i1.2.1

/-- C3, as stated, fails: in a batch of two `Foo.Bar` calls the first callback is invoked
with the entry under `Foo.Bar_0` (here 20), not with the entry under `Foo.Bar` (here 10). -/
theorem twoCalls_first_reads_suffix_zero :
    readyStateChange (fun _ => some sampleEnvelope)
        (beginRequest (fresh [mkCall "Foo.Bar" [], mkCall "Foo.Bar" []]) "id") okTransport =
      Except.ok [Effect.call 0 none (some 20) sampleEnvelope,
        Effect.call 1 none (some 30) sampleEnvelope] ∧
    sampleEnvelope.lookup "Foo.Bar" = some 10 ∧ (some 20 : Option Nat) ≠ some 10 :=
  ⟨rfl, rfl, by decide⟩

/-- Two descriptors held by value (two distinct objects) that both have method `Foo.Bar`
and procedures that return: on a 200 response the first callback is invoked with the
entry under `Foo.Bar_0` and the second with the entry under `Foo.Bar_1`. -/
theorem twoCalls_route {J : Type} (parse : String → Option (Envelope J))
    (s : Ajax) (uuid : String) (a1 a2 : Call) (r : Transport) (all : Envelope J)
    (hs : s.args = [a1, a2]) (h1 : a1.method = "Foo.Bar") (h2 : a2.method = "Foo.Bar")
    (hr1 : a1.returns) (hr2 : a2.returns)
    (h4 : r.readyState = 4) (h200 : r.status = 200)
    (hp : parse r.responseText = some all) :
    readyStateChange parse (beginRequest s uuid) r =
      Except.ok [Effect.call 0 a1.context (all.lookup "Foo.Bar_0") all,
        Effect.call 1 a2.context (all.lookup "Foo.Bar_1") all] := by
  obtain ⟨b1, b2, hargs, c1, c2, p1, p2, k1, k2⟩ :=
    twoCalls_keys s uuid a1 a2 "Foo.Bar" hs h1 h2
  have hret : ∀ a ∈ (beginRequest s uuid).args, a.returns := by
    intro a ha
    rw [hargs] at ha
    simp only [List.mem_cons, List.mem_singleton, List.not_mem_nil, or_false] at ha
    rcases ha with rfl | rfl
    · exact p1.trans hr1
    · exact p2.trans hr2
  rw [readyStateChange_success parse _ r all h4 h200 hp hret, hargs]
  simp only [List.enumFrom, List.map_cons, List.map_nil, k1, k2, c1, c2]
  rfl

/-- C4, as stated, fails: when the first descriptor has no procedure the handler throws a
`TypeError` before any callback is invoked, and when the first procedure throws, its
exception leaves the handler after that one invocation; in both cases the callback of
the second descriptor is never invoked. -/
theorem readyStateChange_stops_at_exception :
    readyStateChange (fun _ => some sampleEnvelope)
        (beginRequest (fresh noProcedureExample) "id") okTransport =
      Except.error { error := "TypeError", effects := [] } ∧
    readyStateChange (fun _ => some sampleEnvelope)
        (beginRequest (fresh throwingExample) "id") okTransport =
      Except.error { error := "Error", effects := [Effect.call 0 none none sampleEnvelope] } :=
  ⟨rfl, rfl⟩

/-- C4 (amended): for a batch in which every descriptor has a procedure and no procedure
throws, with `readyState` 4, status 200 and a response body that parses to `all`, the
default handler returns normally having made exactly one callback invocation per
descriptor, in descriptor order; the invocation for descriptor `i` has the descriptor's
context and the arguments `(all[key_i], all)` with `key_i` the descriptor's lookup key. -/
theorem readyStateChange_invokes_each {J : Type} (parse : String → Option (Envelope J))
    (s : Ajax) (r : Transport) (all : Envelope J) (h4 : r.readyState = 4)
    (h200 : r.status = 200) (hp : parse r.responseText = some all)
    (hret : ∀ a ∈ s.args, a.returns) :
    ∃ effects : List (Effect J), readyStateChange parse s r = Except.ok effects ∧
      effects.length = s.args.length ∧
      ∀ (i : Nat) (a : Call), s.args[i]? = some a →
        effects[i]? =
          some (Effect.call i a.context (all.lookup (lookupKey s.methodInstances a)) all) := by
  refine ⟨_, readyStateChange_success parse s r all h4 h200 hp hret, ?_, ?_⟩
  · simp
  · intro i a ha
    simp [List.getElem?_enumFrom, ha]

theorem readyStateChange_invokes_each_witness :
    ∃ effects : List (Effect Nat),
      readyStateChange (fun _ => some sampleEnvelope)
        (beginRequest (fresh twoFooBar) "id") okTransport = Except.ok effects ∧
      effects.length = (beginRequest (fresh twoFooBar) "id").args.length ∧
      ∀ (i : Nat) (a : Call), (beginRequest (fresh twoFooBar) "id").args[i]? = some a →
        effects[i]? =
          some (Effect.call i a.context (sampleEnvelope.lookup
            (lookupKey (beginRequest (fresh twoFooBar) "id").methodInstances a))
            sampleEnvelope) :=
  readyStateChange_invokes_each (fun _ => some sampleEnvelope)
    (beginRequest (fresh twoFooBar) "id") okTransport sampleEnvelope rfl rfl rfl (by decide)

/-- C5: when `readyState` is not 4 or the status is not 200, the default handler returns
normally and none of its effects is a callback invocation. -/
theorem readyStateChange_no_callback {J : Type} (parse : String → Option (Envelope J))
    (s : Ajax) (r : Transport) (h : r.readyState ≠ 4 ∨ r.status ≠ 200) :
    ∃ effects : List (Effect J), readyStateChange parse s r = Except.ok effects ∧
      ∀ e ∈ effects, e.isCall = false := by
  unfold readyStateChange
  by_cases h1 : r.readyState ≠ 4 ∨ r.status = 0
  · exact ⟨[], by rw [if_pos h1], by simp⟩
  · have h2 : r.status ≠ 200 := by
      rcases h with h | h
      · exact absurd (Or.inl h) h1
      · exact h
    exact ⟨_, by rw [if_neg h1, if_pos h2], by simp [Effect.isCall]⟩

theorem readyStateChange_no_callback_witness :
    ∃ effects : List (Effect Nat),
      readyStateChange (fun _ => some sampleEnvelope) (beginRequest (fresh twoFooBar) "id")
        errorTransport = Except.ok effects ∧
      ∀ e ∈ effects, e.isCall = false :=
  readyStateChange_no_callback (fun _ => some sampleEnvelope)
    (beginRequest (fresh twoFooBar) "id") errorTransport (Or.inr (by decide))

/-- C6, as stated, fails: in the terminal state with status 0 (a value other than 200)
the default handler produces no effect at all, hence no log message. -/
theorem readyStateChange_status_zero_silent :
    readyStateChange (fun _ => some sampleEnvelope) (beginRequest (fresh twoFooBar) "id")
      { readyState := 4, status := 0, responseText := "" } = Except.ok [] :=
  rfl

/-- With status 0 the default handler returns without any effect, whatever the ready
state, the response and the batch. -/
theorem readyStateChange_status_zero {J : Type} (parse : String → Option (Envelope J))
    (s : Ajax) (r : Transport) (h0 : r.status = 0) :
    readyStateChange parse s r = Except.ok [] := by
  simp [readyStateChange, h0]

/-- C6 (amended): for every terminal transport state (`readyState` 4) whose status is
neither 200 nor 0, the default handler produces exactly one effect, the log message
with the status and the response text. -/
theorem readyStateChange_logs {J : Type} (parse : String → Option (Envelope J))
    (s : Ajax) (r : Transport) (h4 : r.readyState = 4) (h200 : r.status ≠ 200)
    (h0 : r.status ≠ 0) :
    readyStateChange parse s r =
      Except.ok [Effect.log ("Nina.ajax request returned a status of " ++ toString r.status
        ++ ":\n" ++ r.responseText)] := by
  simp [readyStateChange, h4, h200, h0]

theorem readyStateChange_logs_witness :
    readyStateChange (fun _ => some sampleEnvelope) (beginRequest (fresh twoFooBar) "id")
        errorTransport =
      Except.ok [Effect.log ("Nina.ajax request returned a status of " ++
        toString errorTransport.status ++ ":\n" ++ errorTransport.responseText)] :=
  readyStateChange_logs (fun _ => some sampleEnvelope) (beginRequest (fresh twoFooBar) "id")
    errorTransport rfl (by decide) (by decide)

/-! ## The construction gate -/

theorem beginRequest_sent (s : Ajax) (uuid : String) :
    (beginRequest s uuid).sent = s.sent ++
      [[FormPart.id (some uuid),
        FormPart.map (resolveMap (beginRequest s uuid).args (beginRequest s uuid).map)] ++
        fileParts (beginRequest s uuid).heap (beginRequest s uuid).args] := rfl

/-- The number of requests sent during construction: none exactly when
`options.delayRequest` is `false`, one otherwise (also when it is `true`). -/
theorem ajax_sent_length (args : Args) (o : Options) (heap : Heap) (uuid : String) :
    (ajax args o heap uuid).sent.length = if o.delayRequest = some false then 0 else 1 := by
  unfold ajax
  by_cases h : o.delayRequest = some false
  · simp [h]
  · simp [h, beginRequest_sent]

/-- C10 (the code at the failing inputs): constructed with `delayRequest: true` the new
object has already sent its request when the constructor returns, and constructed with
`delayRequest: false` (the documented default) it has sent nothing. -/
theorem ajax_delayRequest_inverted :
    (ajax (Args.single (mkCall "Foo.Bar" [])) { delayRequest := some true } [] "id").sent =
        [[FormPart.id (some "id"), FormPart.map [("Foo.Bar", [])]]] ∧
      (ajax (Args.single (mkCall "Foo.Bar" [])) { delayRequest := some false } [] "id").sent =
        [] ∧
      (ajax (Args.single (mkCall "Foo.Bar" [])) { delayRequest := none } [] "id").sent =
        [[FormPart.id (some "id"), FormPart.map [("Foo.Bar", [])]]] :=
  ⟨rfl, rfl, rfl⟩

/-! ## File substitution in closed form -/

@[simp] theorem addFiles_nil (a : Call) : addFiles a [] = a := rfl

theorem addFiles_cons (a : Call) (f : FileHandle) (fs : List FileHandle) :
    addFiles a (f :: fs) = addFiles (pushFile f a) fs := rfl

theorem addFiles_append (a : Call) (fs gs : List FileHandle) :
    addFiles a (fs ++ gs) = addFiles (addFiles a fs) gs := by
  simp [addFiles, List.foldl_append]

@[simp] theorem addFiles_ident (fs : List FileHandle) :
    ∀ a : Call, (addFiles a fs).ident = a.ident := by
  induction fs with
  | nil => intro a; rfl
  | cons f fs ih => intro a; rw [addFiles_cons, ih, pushFile_ident]

@[simp] theorem addFiles_method (a : Call) (fs : List FileHandle) :
    (addFiles a fs).method = a.method :=
  congrArg Prod.fst (addFiles_ident fs a)

@[simp] theorem addFiles_instanceNumber (a : Call) (fs : List FileHandle) :
    (addFiles a fs).instanceNumber = a.instanceNumber :=
  congrArg (fun i => i.2.1) (addFiles_ident fs a)

@[simp] theorem pushFile_parameters (f : FileHandle) (a : Call) :
    (pushFile f a).parameters = a.parameters := by
  unfold pushFile; cases a.files <;> rfl

@[simp] theorem addFiles_parameters (fs : List FileHandle) :
    ∀ a : Call, (addFiles a fs).parameters = a.parameters := by
  induction fs with
  | nil => intro a; rfl
  | cons f fs ih => intro a; rw [addFiles_cons, ih, pushFile_parameters]

theorem pushFile_fileList (f : FileHandle) (a : Call) :
    (pushFile f a).fileList = a.fileList ++ [f] := by
  unfold pushFile Call.fileList; cases a.files <;> rfl

theorem addFiles_fileList (fs : List FileHandle) :
    ∀ a : Call, (addFiles a fs).fileList = a.fileList ++ fs := by
  induction fs with
  | nil => intro a; simp
  | cons f fs ih => intro a; rw [addFiles_cons, ih, pushFile_fileList]; simp

theorem filesLoop_eq (fs : List FileHandle) :
    ∀ (z y : Nat) (a : Call) (h : Heap) (fa : List String),
      filesLoop z y fs a h fa =
        (addFiles a fs,
          (inputPairs a.method a.instanceNumber z y fs).reverse ++ h,
          fa ++ (inputPairs a.method a.instanceNumber z y fs).map Prod.snd) := by
  induction fs with
  | nil => intro z y a h fa; simp [filesLoop, inputPairs]
  | cons f fs ih =>
    intro z y a h fa
    simp only [filesLoop, ih, pushFile_method, pushFile_instanceNumber, addFiles_cons]
    simp [inputPairs, List.enumFrom, List.lookup]

theorem itemsLoop_eq (is : List Item) :
    ∀ (z : Nat) (a : Call) (h : Heap) (fa : List String),
      itemsLoop z is a h fa =
        (addFiles a ((itemPairs a.method a.instanceNumber z is).map Prod.fst),
          (itemPairs a.method a.instanceNumber z is).reverse ++ h,
          fa ++ (itemPairs a.method a.instanceNumber z is).map Prod.snd) := by
  induction is with
  | nil => intro z a h fa; simp [itemsLoop, itemPairs]
  | cons i is ih =>
    intro z a h fa
    cases i with
    | scalar v => simp [itemsLoop, itemPairs, ih]
    | file f =>
      have hf : (inputPairs a.method a.instanceNumber z 0 f.files).map Prod.fst = f.files := by
        simp [inputPairs, Function.comp_def, List.enumFrom_map_snd]
      simp [itemsLoop, itemPairs, ih, filesLoop_eq, addFiles_append, hf]

theorem inputPairs_fst (m : String) (inst : Option Nat) (z y : Nat) (fs : List FileHandle) :
    (inputPairs m inst z y fs).map Prod.fst = fs := by
  simp [inputPairs, Function.comp_def, List.enumFrom_map_snd]

theorem parseParam_eq (p : Param) (a : Call) (h : Heap) :
    parseParam p a h =
      (substParam a.method a.instanceNumber p,
        addFiles a ((paramPairs a.method a.instanceNumber p).map Prod.fst),
        (paramPairs a.method a.instanceNumber p).reverse ++ h) := by
  cases p with
  | scalar v => simp [parseParam, substParam, paramPairs]
  | file f =>
    simp only [parseParam, filesLoop_eq, substParam, paramPairs, List.nil_append,
      inputPairs_fst, List.length_map]
    split <;> rfl
  | array items =>
    simp only [parseParam, itemsLoop_eq, substParam, paramPairs, List.nil_append,
      List.length_map]
    split <;> rfl

theorem paramsLoop_eq (ps : List Param) :
    ∀ (a : Call) (h : Heap),
      paramsLoop ps a h =
        (ps.map (substParam a.method a.instanceNumber),
          addFiles a ((ps.flatMap (paramPairs a.method a.instanceNumber)).map Prod.fst),
          (ps.flatMap (paramPairs a.method a.instanceNumber)).reverse ++ h) := by
  induction ps with
  | nil => intro a h; simp [paramsLoop]
  | cons p ps ih =>
    intro a h
    simp [paramsLoop, parseParam_eq, ih, addFiles_append]

theorem parseCall_eq (a : Call) (h : Heap) :
    parseCall a h = (substCall a, (callPairs a).reverse ++ h) := by
  simp [parseCall, paramsLoop_eq, substCall, callPairs]

theorem parseFiles_eq (l : List Call) :
    ∀ h : Heap, parseFiles l h = (l.map substCall, (batchPairs l).reverse ++ h) := by
  induction l with
  | nil => intro h; simp [parseFiles, batchPairs]
  | cons a l ih =>
    intro h
    simp [parseFiles, parseCall_eq, ih, batchPairs]

/-! ## The batch after numbering, and the serialized map -/

theorem numberLoop_eq_numbered (l : List Call) : (numberLoop 0 l [] []).1 = numbered l := by
  apply List.ext_getElem?
  intro i
  cases h : l[i]? with
  | none =>
    have hlen : l.length ≤ i := List.getElem?_eq_none_iff.mp h
    rw [List.getElem?_eq_none_iff.mpr (by rw [numberLoop_length]; exact hlen),
      List.getElem?_eq_none_iff.mpr (by simpa [numbered] using hlen)]
  | some a =>
    rw [numberLoop_instance l [] 0 [] [] i a countersAgree_nil h]
    simp [numbered, List.enum, List.getElem?_enumFrom, h, instanceAt]

theorem numbered_getElem? (l : List Call) (i : Nat) :
    (numbered l)[i]? =
      l[i]?.map fun a => { a with instanceNumber := some (instanceAt l i a) } := by
  simp only [numbered, List.enum, List.getElem?_map, List.getElem?_enumFrom, Nat.zero_add]
  cases l[i]? <;> rfl

theorem numbered_length (l : List Call) : (numbered l).length = l.length := by
  simp [numbered]

theorem beginRequest_args_eq (s : Ajax) (uuid : String) :
    (beginRequest s uuid).args = (numbered s.args).map substCall := by
  rw [beginRequest_args, parseFiles_eq, numberLoop_eq_numbered]

theorem beginRequest_heap_eq (s : Ajax) (uuid : String) :
    (beginRequest s uuid).heap = (batchPairs (numbered s.args)).reverse ++ s.heap := by
  show (parseFiles (numberLoop 0 s.args [] []).1 s.heap).2 = _
  rw [parseFiles_eq, numberLoop_eq_numbered]

theorem beginRequest_map_eq (s : Ajax) (uuid : String) :
    (beginRequest s uuid).map = s.args.enum.map fun e => (e.2.method, e.1) := by
  show (numberLoop 0 s.args [] []).2.2 = _
  rw [numberLoop_map]
  rfl

@[simp] theorem substCall_method (a : Call) : (substCall a).method = a.method := by
  simp [substCall]

@[simp] theorem substCall_parameters (a : Call) :
    (substCall a).parameters = a.parameters.map (substParam a.method a.instanceNumber) := rfl

/-- The map serialized by `beginRequest`: entry `i` is the method of descriptor `i` with
its parameter array after substitution. -/
theorem beginRequest_resolveMap (s : Ajax) (uuid : String) :
    resolveMap (beginRequest s uuid).args (beginRequest s uuid).map =
      (numbered s.args).map fun a =>
        (a.method, a.parameters.map (substParam a.method a.instanceNumber)) := by
  rw [beginRequest_args_eq, beginRequest_map_eq]
  apply List.ext_getElem?
  intro i
  simp only [resolveMap, List.enum, List.getElem?_map, List.getElem?_enumFrom, Nat.zero_add,
    numbered_getElem?]
  cases h : s.args[i]? with
  | none => rfl
  | some a => simp [h, numbered_getElem?]

/-! ## Identifiers of bare file parameters -/

theorem inputPairs_snd (m : String) (inst : Option Nat) (z : Nat) (fs : List FileHandle) :
    (inputPairs m inst z 0 fs).map Prod.snd =
      (List.range fs.length).map fun y => writeFileId m inst z y := by
  have h : (inputPairs m inst z 0 fs).map Prod.snd =
      ((fs.enumFrom 0).map Prod.fst).map fun y => writeFileId m inst z y := by
    simp only [inputPairs, List.map_map]
    rfl
  rw [h, List.enumFrom_map_fst, List.range_eq_range']

theorem substParam_file (m : String) (inst : Option Nat) (f : FileInput) :
    substParam m inst (Param.file f) =
      if f.files = [] then Param.file f
      else Param.scalar (Scalar.str (String.join
        ((List.range f.files.length).map fun y => writeFileId m inst 0 y))) := by
  unfold substParam
  by_cases h : f.files = []
  · simp [h, paramPairs, inputPairs]
  · have hl : (paramPairs m inst (Param.file f)).length > 0 := by
      simp only [paramPairs, inputPairs, List.length_map, List.enumFrom_length]
      exact List.length_pos.mpr h
    rw [if_pos hl, if_neg h]
    simp only [paramPairs, inputPairs_snd]

/-- C7, as stated, fails: for the parameters `['~\\', fileInput]` the file of the input
at parameter index 1 gets the identifier with third component 0, which is not the
identifier with third component 1. -/
theorem upload_identifier_has_zero :
    (beginRequest (fresh uploadExample) "id").sent =
      [[FormPart.id (some "id"),
        FormPart.map [("FileManager.Upload", [Param.scalar (Scalar.str "~\\"),
          Param.scalar (Scalar.str "file:::FileManager.Upload_0_files_0_0")])],
        FormPart.file (some "file:::FileManager.Upload_0_files_0_0") 7]] ∧
    "file:::FileManager.Upload_0_files_0_0" ≠ writeFileId "FileManager.Upload" (some 0) 1 0 :=
  ⟨rfl, by decide⟩

/-- C7 (amended): for the call at index `x` and a file input standing directly at index
`t` of its parameter list, the identifier written for the file at index `y` is
`"file:::" + method + "_" + instanceNumber + "_files_0_" + y`, with third component 0
whatever `t` is: after `beginRequest` the descriptor keeps its method, carries the
number of earlier calls of that method, and slot `t` of its parameter array (the array
the map entry `x` refers to) holds these identifiers joined in file order; an input
without files stays. -/
theorem bare_file_identifier (s : Ajax) (uuid : String) (x t : Nat) (a : Call)
    (f : FileInput) (hx : s.args[x]? = some a)
    (ht : a.parameters[t]? = some (Param.file f)) :
    ∃ b : Call, (beginRequest s uuid).args[x]? = some b ∧
      (resolveMap (beginRequest s uuid).args (beginRequest s uuid).map)[x]? =
        some (b.method, b.parameters) ∧
      b.method = a.method ∧
      b.instanceNumber = some ((s.args.take x).countP fun c => c.method = a.method) ∧
      b.parameters[t]? = some
        (if f.files = [] then Param.file f
         else Param.scalar (Scalar.str (String.join
          ((List.range f.files.length).map fun y =>
            writeFileId b.method b.instanceNumber 0 y)))) := by
  have hcnt : instanceAt s.args x a = (s.args.take x).countP fun c => c.method = a.method := by
    unfold instanceAt
    rw [List.count_eq_countP, List.countP_map]
    congr 1
  refine ⟨substCall { a with instanceNumber := some (instanceAt s.args x a) }, ?_, ?_, ?_, ?_, ?_⟩
  · simp [beginRequest_args_eq, numbered_getElem?, hx]
  · simp [beginRequest_resolveMap, numbered_getElem?, hx]
  · simp
  · simp [substCall, hcnt]
  · simp only [substCall_parameters, List.getElem?_map, ht, Option.map_some',
      substParam_file, substCall_method]
    simp [substCall]

theorem bare_file_identifier_witness :
    ∃ b : Call, (beginRequest (fresh uploadExample) "id").args[0]? = some b ∧
      (resolveMap (beginRequest (fresh uploadExample) "id").args
        (beginRequest (fresh uploadExample) "id").map)[0]? = some (b.method, b.parameters) ∧
      b.method = "FileManager.Upload" ∧
      b.instanceNumber = some (((fresh uploadExample).args.take 0).countP
        fun c => c.method = "FileManager.Upload") ∧
      b.parameters[1]? = some
        (if ({ files := [7] } : FileInput).files = [] then Param.file { files := [7] }
         else Param.scalar (Scalar.str (String.join
          ((List.range ({ files := [7] } : FileInput).files.length).map fun y =>
            writeFileId b.method b.instanceNumber 0 y)))) :=
  bare_file_identifier (fresh uploadExample) "id" 0 1
    (mkCall "FileManager.Upload" [Param.scalar (Scalar.str "~\\"), Param.file { files := [7] }])
    { files := [7] } rfl rfl

/-! ## Raw file references in the serialized map -/

theorem itemPairs_fst (m : String) (inst : Option Nat) (is : List Item) :
    ∀ z : Nat, (itemPairs m inst z is).map Prod.fst = is.flatMap Item.handles := by
  induction is with
  | nil => intro z; rfl
  | cons i is ih =>
    intro z
    cases i with
    | scalar v => simp [itemPairs, ih, Item.handles]
    | file f => simp [itemPairs, ih, Item.handles, inputPairs_fst]

theorem paramPairs_fst (m : String) (inst : Option Nat) (p : Param) :
    (paramPairs m inst p).map Prod.fst = p.handles := by
  cases p with
  | scalar v => rfl
  | file f => simp [paramPairs, Param.handles, inputPairs_fst]
  | array items => simp [paramPairs, Param.handles, itemPairs_fst]

theorem paramPairs_length (m : String) (inst : Option Nat) (p : Param) :
    (paramPairs m inst p).length = p.handles.length := by
  rw [← paramPairs_fst m inst p, List.length_map]

/-- A slot holds a raw file reference after substitution exactly when the parameter has
a file input and no file at all. -/
theorem substParam_hasFile (m : String) (inst : Option Nat) (p : Param) :
    (substParam m inst p).hasFile = true ↔ p.hasFile = true ∧ p.handles = [] := by
  unfold substParam
  rw [paramPairs_length]
  by_cases h : p.handles = []
  · simp [h]
  · have : p.handles.length > 0 := List.length_pos.mpr h
    simp [this, h, Param.hasFile]

/-- An input in which no file is selected carries no file handle, so it is not a file
reference of the data model; `parseFiles` does not replace it and it stays in the
serialized map. -/
theorem empty_input_stays_raw :
    (beginRequest (fresh emptyInputExample) "id").sent =
      [[FormPart.id (some "id"),
        FormPart.map [("FileManager.Upload", [Param.file { files := [] }])]]] ∧
    (Param.file { files := [] }).hasFile = true :=
  ⟨rfl, rfl⟩

/-- The map serialized by `beginRequest` contains no file input exactly when every
parameter of the batch that is or contains a file input carries at least one file. -/
theorem serialized_map_has_no_file_iff (s : Ajax) (uuid : String) :
    (∀ e ∈ resolveMap (beginRequest s uuid).args (beginRequest s uuid).map,
        ∀ p ∈ e.2, p.hasFile = false) ↔
      ∀ a ∈ s.args, ∀ p ∈ a.parameters, p.hasFile = true → p.handles ≠ [] := by
  rw [beginRequest_resolveMap]
  have hmem : ∀ b : Call, b ∈ numbered s.args →
      ∃ a ∈ s.args, b.method = a.method ∧ b.parameters = a.parameters := by
    intro b hb
    obtain ⟨i, hi⟩ := List.mem_iff_getElem?.mp hb
    rw [numbered_getElem?] at hi
    cases ha : s.args[i]? with
    | none => rw [ha] at hi; simp at hi
    | some a =>
      rw [ha] at hi
      simp only [Option.map_some', Option.some.injEq] at hi
      exact ⟨a, List.getElem?_mem ha, by rw [← hi], by rw [← hi]⟩
  have hmem2 : ∀ a : Call, a ∈ s.args →
      ∃ b ∈ numbered s.args, b.method = a.method ∧ b.parameters = a.parameters := by
    intro a ha
    obtain ⟨i, hi⟩ := List.mem_iff_getElem?.mp ha
    exact ⟨{ a with instanceNumber := some (instanceAt s.args i a) },
      List.getElem?_mem (n := i) (by rw [numbered_getElem?, hi]; rfl), rfl, rfl⟩
  constructor
  · intro h a ha p hp hfile hempty
    obtain ⟨b, hb, _, hbp⟩ := hmem2 a ha
    have := h (b.method, b.parameters.map (substParam b.method b.instanceNumber))
      (List.mem_map.mpr ⟨b, hb, rfl⟩) (substParam b.method b.instanceNumber p)
      (List.mem_map.mpr ⟨p, by rw [hbp]; exact hp, rfl⟩)
    rw [(substParam_hasFile b.method b.instanceNumber p).mpr ⟨hfile, hempty⟩] at this
    exact Bool.noConfusion this
  · intro h e he q hq
    obtain ⟨b, hb, rfl⟩ := List.mem_map.mp he
    obtain ⟨p, hp, rfl⟩ := List.mem_map.mp hq
    obtain ⟨a, ha, _, hap⟩ := hmem b hb
    cases hq2 : (substParam b.method b.instanceNumber p).hasFile with
    | false => rfl
    | true =>
      have := (substParam_hasFile b.method b.instanceNumber p).mp hq2
      exact absurd this.2 (h a ha p (by rw [← hap]; exact hp) this.1)

/-! ## Identifiers determine their components -/

theorem digitChar_ne_underscore (k : Nat) (h : k < 10) : Nat.digitChar k ≠ '_' := by
  interval_cases k <;> decide

theorem digitChar_value (k : Nat) (h : k < 10) : (Nat.digitChar k).toNat - 48 = k := by
  interval_cases k <;> rfl

theorem toDigitsCore_append (fuel : Nat) :
    ∀ (n : Nat) (ds : List Char),
      Nat.toDigitsCore 10 fuel n ds = Nat.toDigitsCore 10 fuel n [] ++ ds := by
  induction fuel with
  | zero => intro n ds; simp [Nat.toDigitsCore]
  | succ fuel ih =>
    intro n ds
    simp only [Nat.toDigitsCore]
    split
    · simp
    · rw [ih _ (_ :: ds), ih _ [_]]
      simp

theorem toDigitsCore_no_underscore (fuel : Nat) :
    ∀ (n : Nat), ∀ c ∈ Nat.toDigitsCore 10 fuel n [], c ≠ '_' := by
  induction fuel with
  | zero => intro n c hc; simp [Nat.toDigitsCore] at hc
  | succ fuel ih =>
    intro n c hc
    simp only [Nat.toDigitsCore] at hc
    split at hc
    · simp only [List.mem_singleton] at hc
      rw [hc]
      exact digitChar_ne_underscore _ (Nat.mod_lt _ (by decide))
    · rw [toDigitsCore_append] at hc
      rcases List.mem_append.mp hc with h | h
      · exact ih _ c h
      · simp only [List.mem_singleton] at h
        rw [h]
        exact digitChar_ne_underscore _ (Nat.mod_lt _ (by decide))

theorem digitsValue_append (xs : List Char) (c : Char) :
    digitsValue (xs ++ [c]) = 10 * digitsValue xs + (c.toNat - 48) := by
  simp [digitsValue, List.foldl_append]

theorem digitsValue_toDigitsCore (fuel : Nat) :
    ∀ n : Nat, n < fuel → digitsValue (Nat.toDigitsCore 10 fuel n []) = n := by
  induction fuel with
  | zero => intro n h; omega
  | succ fuel ih =>
    intro n h
    simp only [Nat.toDigitsCore]
    split
    · rename_i h0
      have : n < 10 := by omega
      simp [digitsValue, digitChar_value (n % 10) (Nat.mod_lt _ (by decide))]
      omega
    · rename_i h0
      rw [toDigitsCore_append, digitsValue_append, ih (n / 10) (by omega),
        digitChar_value (n % 10) (Nat.mod_lt _ (by decide))]
      omega

theorem repr_data_injective (n k : Nat) (h : (Nat.repr n).data = (Nat.repr k).data) :
    n = k := by
  have hn := digitsValue_toDigitsCore (n + 1) n (Nat.lt_succ_self n)
  have hk := digitsValue_toDigitsCore (k + 1) k (Nat.lt_succ_self k)
  simp only [Nat.repr, Nat.toDigits, List.asString] at h
  rw [← hn, ← hk, h]

theorem repr_no_underscore (n : Nat) : ∀ c ∈ (Nat.repr n).data, c ≠ '_' := by
  intro c hc
  exact toDigitsCore_no_underscore (n + 1) n c hc

/-- Two lists that end in an underscore followed by underscore-free text agree part by
part. -/
theorem split_last_underscore (r r2 d d2 : List Char) (hd : ∀ c ∈ d, c ≠ '_')
    (hd2 : ∀ c ∈ d2, c ≠ '_') (h : r ++ '_' :: d = r2 ++ '_' :: d2) : r = r2 ∧ d = d2 := by
  rcases List.append_eq_append_iff.mp h with ⟨t, h1, h2⟩ | ⟨t, h1, h2⟩
  · cases t with
    | nil => simp at h1 h2; exact ⟨h1.symm, h2⟩
    | cons c t =>
      simp only [List.cons_append, List.cons.injEq] at h2
      exact absurd rfl (hd '_' (by rw [h2.2]; simp))
  · cases t with
    | nil => simp at h1 h2; exact ⟨h1, h2.symm⟩
    | cons c t =>
      simp only [List.cons_append, List.cons.injEq] at h2
      exact absurd rfl (hd2 '_' (by rw [h2.2]; simp))

theorem writeFileId_data (m : String) (i z y : Nat) :
    (writeFileId m (some i) z y).data =
      ((("file:::".data ++ m.data ++ '_' :: (Nat.repr i).data) ++ "_files".data) ++
        '_' :: (Nat.repr z).data) ++ '_' :: (Nat.repr y).data := by
  simp [writeFileId, jsNum, String.data_append]
  rfl

/-- An identifier determines the method, the instance number and both indices. -/
theorem writeFileId_injective (m m2 : String) (i i2 z z2 y y2 : Nat)
    (h : writeFileId m (some i) z y = writeFileId m2 (some i2) z2 y2) :
    m = m2 ∧ i = i2 ∧ z = z2 ∧ y = y2 := by
  have hd := congrArg String.data h
  rw [writeFileId_data, writeFileId_data] at hd
  obtain ⟨h1, hy⟩ := split_last_underscore _ _ _ _ (repr_no_underscore y)
    (repr_no_underscore y2) hd
  obtain ⟨h2, hz⟩ := split_last_underscore _ _ _ _ (repr_no_underscore z)
    (repr_no_underscore z2) h1
  have h3 := List.append_cancel_right h2
  rw [List.append_assoc, List.append_assoc] at h3
  obtain ⟨h4, hi⟩ := split_last_underscore _ _ _ _ (repr_no_underscore i)
    (repr_no_underscore i2) (List.append_cancel_left h3)
  exact ⟨String.ext h4, repr_data_injective _ _ hi, repr_data_injective _ _ hz,
    repr_data_injective _ _ hy⟩

/-! ## Distinct identifiers -/

theorem mem_inputPairs_snd (m : String) (inst : Option Nat) (z : Nat) (fs : List FileHandle)
    (s : String) (h : s ∈ (inputPairs m inst z 0 fs).map Prod.snd) :
    ∃ y, s = writeFileId m inst z y := by
  rw [inputPairs_snd] at h
  obtain ⟨y, _, hy⟩ := List.mem_map.mp h
  exact ⟨y, hy.symm⟩

theorem inputPairs_snd_nodup (m : String) (i z : Nat) (fs : List FileHandle) :
    ((inputPairs m (some i) z 0 fs).map Prod.snd).Nodup := by
  rw [inputPairs_snd]
  apply List.Nodup.map_on _ (List.nodup_range _)
  intro y _ y2 _ h
  exact (writeFileId_injective m m i i z z y y2 h).2.2.2

theorem mem_itemPairs_snd (m : String) (inst : Option Nat) (is : List Item) :
    ∀ (z : Nat) (s : String), s ∈ (itemPairs m inst z is).map Prod.snd →
      ∃ z2 y, z ≤ z2 ∧ s = writeFileId m inst z2 y := by
  induction is with
  | nil => intro z s h; simp [itemPairs] at h
  | cons i is ih =>
    intro z s h
    cases i with
    | scalar v =>
      obtain ⟨z2, y, hz, hs⟩ := ih (z + 1) s (by simpa [itemPairs] using h)
      exact ⟨z2, y, by omega, hs⟩
    | file f =>
      simp only [itemPairs, List.map_append, List.mem_append] at h
      rcases h with h | h
      · obtain ⟨y, hy⟩ := mem_inputPairs_snd m inst z f.files s h
        exact ⟨z, y, Nat.le_refl z, hy⟩
      · obtain ⟨z2, y, hz, hs⟩ := ih (z + 1) s h
        exact ⟨z2, y, by omega, hs⟩

theorem itemPairs_snd_nodup (m : String) (i : Nat) (is : List Item) :
    ∀ z : Nat, ((itemPairs m (some i) z is).map Prod.snd).Nodup := by
  induction is with
  | nil => intro z; simp [itemPairs]
  | cons it is ih =>
    intro z
    cases it with
    | scalar v => simpa [itemPairs] using ih (z + 1)
    | file f =>
      simp only [itemPairs, List.map_append]
      refine List.nodup_append.mpr ⟨inputPairs_snd_nodup m i z f.files, ih (z + 1), ?_⟩
      intro s h1 h2
      obtain ⟨y, hy⟩ := mem_inputPairs_snd m (some i) z f.files s h1
      obtain ⟨z2, y2, hz, hs⟩ := mem_itemPairs_snd m (some i) is (z + 1) s h2
      have := (writeFileId_injective m m i i z z2 y y2 (hy.symm.trans hs)).2.2.1
      omega

theorem paramPairs_snd_nodup (m : String) (i : Nat) (p : Param) :
    ((paramPairs m (some i) p).map Prod.snd).Nodup := by
  cases p with
  | scalar v => simp [paramPairs]
  | file f => exact inputPairs_snd_nodup m i 0 f.files
  | array items => exact itemPairs_snd_nodup m i items 0

theorem mem_paramPairs_snd (m : String) (inst : Option Nat) (p : Param) (s : String)
    (h : s ∈ (paramPairs m inst p).map Prod.snd) : ∃ z y, s = writeFileId m inst z y := by
  cases p with
  | scalar v => simp [paramPairs] at h
  | file f =>
    obtain ⟨y, hy⟩ := mem_inputPairs_snd m inst 0 f.files s h
    exact ⟨0, y, hy⟩
  | array items =>
    obtain ⟨z, y, _, hs⟩ := mem_itemPairs_snd m inst items 0 s h
    exact ⟨z, y, hs⟩

theorem mem_callPairs_snd (a : Call) (s : String) (h : s ∈ (callPairs a).map Prod.snd) :
    ∃ z y, s = writeFileId a.method a.instanceNumber z y := by
  simp only [callPairs, List.map_flatMap, List.mem_flatMap] at h
  obtain ⟨p, _, hp⟩ := h
  exact mem_paramPairs_snd a.method a.instanceNumber p s hp

theorem flatMap_of_countP_le_one {β : Type} (F : Param → List β)
    (hF : ∀ p, F p ≠ [] → p.handles ≠ []) (ps : List Param)
    (h : (ps.countP fun p => decide (p.handles ≠ [])) ≤ 1) :
    ps.flatMap F = [] ∨ ∃ p, ps.flatMap F = F p := by
  induction ps with
  | nil => exact Or.inl rfl
  | cons p ps ih =>
    by_cases hp : F p = []
    · have hle : (ps.countP fun p => decide (p.handles ≠ [])) ≤ 1 := by
        rw [List.countP_cons] at h
        omega
      rcases ih hle with h0 | ⟨q, hq⟩
      · exact Or.inl (by simp [hp, h0])
      · exact Or.inr ⟨q, by simp [hp, hq]⟩
    · have hph := hF p hp
      have hz : (ps.countP fun p => decide (p.handles ≠ [])) = 0 := by
        rw [List.countP_cons_of_pos _ _ (by simpa using hph)] at h
        omega
      have hall : ps.flatMap F = [] := by
        rw [List.flatMap_eq_nil_iff]
        intro q hq
        by_contra hne
        exact (List.countP_eq_zero.mp hz) q hq (by simpa using hF q hne)
      exact Or.inr ⟨p, by simp [hall]⟩

theorem callPairs_snd_nodup (a : Call) (i : Nat) (hi : a.instanceNumber = some i)
    (h : a.oneFileParam) : ((callPairs a).map Prod.snd).Nodup := by
  unfold callPairs
  rw [hi]
  rcases flatMap_of_countP_le_one (paramPairs a.method (some i))
    (fun p hp hh => hp (List.length_eq_zero.mp
      (by rw [paramPairs_length, hh]; rfl))) a.parameters h with h0 | ⟨p, hp⟩
  · rw [h0]; exact List.nodup_nil
  · rw [hp]; exact paramPairs_snd_nodup a.method i p

theorem instanceAt_lt (l : List Call) (i j : Nat) (a : Call) (hij : i < j)
    (ha : l[i]? = some a) :
    ((l.take i).map Call.method).count a.method <
      ((l.take j).map Call.method).count a.method := by
  have h1 : l.take (i + 1) = l.take i ++ [a] := by rw [List.take_succ, ha]; rfl
  have h2 : (l.take (i + 1)).Sublist (l.take j) := by
    have : l.take (i + 1) = (l.take j).take (i + 1) := by
      rw [List.take_take, Nat.min_eq_left (by omega)]
    rw [this]
    exact List.take_sublist _ _
  have h3 := (h2.map Call.method).count_le a.method
  rw [h1] at h3
  simp only [List.map_append, List.map_cons, List.map_nil, List.count_append,
    List.count_cons_self, List.count_nil] at h3
  omega

/-- After numbering, no two descriptors share both method and instance number. -/
theorem numbered_pairwise (l : List Call) :
    (numbered l).Pairwise fun a b =>
      ¬ (a.method = b.method ∧ a.instanceNumber = b.instanceNumber) := by
  rw [List.pairwise_iff_getElem]
  intro i j hi hj hij
  have gi := numbered_getElem? l i
  have gj := numbered_getElem? l j
  rw [List.getElem?_eq_getElem hi] at gi
  rw [List.getElem?_eq_getElem hj] at gj
  rw [numbered_length] at hi hj
  rw [List.getElem?_eq_getElem hi] at gi
  rw [List.getElem?_eq_getElem hj] at gj
  simp only [Option.map_some', Option.some.injEq] at gi gj
  rw [gi, gj]
  simp only [Option.some.injEq, not_and]
  intro hm
  have hlt := instanceAt_lt l i j l[i] hij (List.getElem?_eq_getElem hi)
  unfold instanceAt
  rw [← hm]
  omega

theorem numbered_instanceNumber (l : List Call) (a : Call) (ha : a ∈ numbered l) :
    ∃ i, a.instanceNumber = some i := by
  obtain ⟨i, hi⟩ := List.mem_iff_getElem?.mp ha
  rw [numbered_getElem?] at hi
  cases h : l[i]? with
  | none => rw [h] at hi; simp at hi
  | some b =>
    rw [h] at hi
    simp only [Option.map_some', Option.some.injEq] at hi
    exact ⟨_, by rw [← hi]⟩

theorem numbered_map_parameters (l : List Call) :
    (numbered l).map Call.parameters = l.map Call.parameters := by
  apply List.ext_getElem?
  intro i
  simp only [List.getElem?_map, numbered_getElem?]
  cases l[i]? <;> rfl

theorem numbered_map_files (l : List Call) :
    (numbered l).map Call.files = l.map Call.files := by
  apply List.ext_getElem?
  intro i
  simp only [List.getElem?_map, numbered_getElem?]
  cases l[i]? <;> rfl

/-- When every call has at most one parameter carrying files, the identifiers written
for the batch are pairwise distinct. -/
theorem batchPairs_snd_nodup (l : List Call) (h : ∀ a ∈ l, a.oneFileParam) :
    ((batchPairs (numbered l)).map Prod.snd).Nodup := by
  have hone : ∀ b ∈ numbered l, b.oneFileParam := by
    intro b hb
    have hp : b.parameters ∈ l.map Call.parameters := by
      rw [← numbered_map_parameters]
      exact List.mem_map_of_mem _ hb
    obtain ⟨a, ha, hpa⟩ := List.mem_map.mp hp
    have := h a ha
    unfold Call.oneFileParam at this ⊢
    rw [← hpa]
    exact this
  unfold batchPairs
  rw [List.map_flatMap, List.nodup_flatMap]
  constructor
  · intro b hb
    obtain ⟨i, hi⟩ := numbered_instanceNumber l b hb
    exact callPairs_snd_nodup b i hi (hone b hb)
  · have hmem : ∀ b ∈ numbered l, ∃ i, b.instanceNumber = some i :=
      numbered_instanceNumber l
    have hpw := numbered_pairwise l
    generalize numbered l = n at hmem hpw
    induction n with
    | nil => exact List.Pairwise.nil
    | cons b n ih =>
      rw [List.pairwise_cons] at hpw ⊢
      refine ⟨?_, ih (fun c hc => hmem c (List.mem_cons_of_mem _ hc)) hpw.2⟩
      intro c hc s hs1 hs2
      obtain ⟨z, y, e1⟩ := mem_callPairs_snd b s hs1
      obtain ⟨z2, y2, e2⟩ := mem_callPairs_snd c s hs2
      obtain ⟨i, hi⟩ := hmem b (List.mem_cons_self _ _)
      obtain ⟨i2, hi2⟩ := hmem c (List.mem_cons_of_mem _ hc)
      rw [hi] at e1
      rw [hi2] at e2
      have hinj := writeFileId_injective _ _ _ _ _ _ _ _ (e1.symm.trans e2)
      exact hpw.1 c hc ⟨hinj.1, by rw [hi, hi2, hinj.2.1]⟩

/-! ## File parts -/

theorem fileParts_eq (h : Heap) (l : List Call) :
    fileParts h l = l.flatMap fun a => a.fileList.map fun f => FormPart.file (h.lookup f) f := by
  induction l with
  | nil => rfl
  | cons a l ih =>
    simp only [fileParts, ih, List.flatMap_cons, Call.fileList]
    cases a.files <;> rfl

theorem substCall_fileList (a : Call) :
    (substCall a).fileList = a.fileList ++ (callPairs a).map Prod.fst := by
  have : (substCall a).fileList = (addFiles a ((callPairs a).map Prod.fst)).fileList := rfl
  rw [this, addFiles_fileList]

theorem lookup_of_mem_nodup (l : List (FileHandle × String)) (e : FileHandle × String)
    (hn : (l.map Prod.fst).Nodup) (he : e ∈ l) : l.lookup e.1 = some e.2 := by
  induction l with
  | nil => simp at he
  | cons x l ih =>
    obtain ⟨k, v⟩ := x
    rw [List.map_cons, List.nodup_cons] at hn
    rcases List.mem_cons.mp he with rfl | hmem
    · simp [List.lookup]
    · have hne : e.1 ≠ k := by
        intro heq
        have hin : e.1 ∈ l.map Prod.fst := List.mem_map_of_mem Prod.fst hmem
        rw [heq] at hin
        exact hn.1 hin
      have hb : (e.1 == k) = false := by simpa using hne
      simp only [List.lookup, hb]
      exact ih hn.2 hmem

theorem lookup_written (pairs : List (FileHandle × String)) (h : Heap)
    (e : FileHandle × String) (hn : (pairs.map Prod.fst).Nodup) (he : e ∈ pairs) :
    (pairs.reverse ++ h).lookup e.1 = some e.2 := by
  rw [List.lookup_append, lookup_of_mem_nodup pairs.reverse e
    (by rw [List.map_reverse]; exact List.nodup_reverse.mpr hn) (List.mem_reverse.mpr he)]
  rfl

theorem callPairs_fst (a : Call) :
    (callPairs a).map Prod.fst = a.parameters.flatMap Param.handles := by
  simp only [callPairs, List.map_flatMap, paramPairs_fst]

theorem batchPairs_fst (l : List Call) :
    (batchPairs (numbered l)).map Prod.fst = batchHandles l := by
  simp only [batchPairs, List.map_flatMap, callPairs_fst, batchHandles]
  rw [← List.flatMap_map Call.parameters (fun ps => ps.flatMap Param.handles),
    numbered_map_parameters, List.flatMap_map]

/-- For descriptors without files attached, and file handles that all differ, the file
parts are the pairs of file and identifier, in the order the identifiers were written. -/
theorem beginRequest_fileParts (s : Ajax) (uuid : String)
    (hfresh : ∀ a ∈ s.args, a.files = none) (hdistinct : (batchHandles s.args).Nodup) :
    fileParts (beginRequest s uuid).heap (beginRequest s uuid).args =
      (batchPairs (numbered s.args)).map fun e => FormPart.file (some e.2) e.1 := by
  have hnil : ∀ b ∈ numbered s.args, b.fileList = [] := by
    intro b hb
    have hf : b.files ∈ s.args.map Call.files := by
      rw [← numbered_map_files]
      exact List.mem_map_of_mem _ hb
    obtain ⟨a, ha, hfa⟩ := List.mem_map.mp hf
    rw [Call.fileList, ← hfa, hfresh a ha]
    rfl
  have hn : ((batchPairs (numbered s.args)).map Prod.fst).Nodup := by
    rw [batchPairs_fst]; exact hdistinct
  rw [fileParts_eq, beginRequest_args_eq, beginRequest_heap_eq, List.flatMap_map]
  have step : ∀ b ∈ numbered s.args,
      ((substCall b).fileList.map fun f =>
        FormPart.file (((batchPairs (numbered s.args)).reverse ++ s.heap).lookup f) f) =
      (callPairs b).map fun e => FormPart.file (some e.2) e.1 := by
    intro b hb
    rw [substCall_fileList, hnil b hb, List.nil_append, List.map_map]
    apply List.map_congr_left
    intro e he
    have hmem : e ∈ batchPairs (numbered s.args) :=
      List.mem_flatMap.mpr ⟨b, hb, he⟩
    simp only [Function.comp, lookup_written _ s.heap e hn hmem]
  rw [List.flatMap_congr step]
  simp only [batchPairs, List.map_flatMap]

/-- C8, as stated, fails.  With two file inputs as parameters of one call both files get
the same identifier, so the identifiers are not pairwise distinct and one identifier
names two file parts.  With one file input given to two calls the identifier placed into
the first map entry names no file part, and the second names two. -/
theorem file_identifiers_collide :
    (beginRequest (fresh twoInputsExample) "id").sent =
      [[FormPart.id (some "id"),
        FormPart.map [("FileManager.Upload",
          [Param.scalar (Scalar.str "file:::FileManager.Upload_0_files_0_0"),
           Param.scalar (Scalar.str "file:::FileManager.Upload_0_files_0_0")])],
        FormPart.file (some "file:::FileManager.Upload_0_files_0_0") 1,
        FormPart.file (some "file:::FileManager.Upload_0_files_0_0") 2]] ∧
    (beginRequest (fresh sharedInputExample) "id").sent =
      [[FormPart.id (some "id"),
        FormPart.map [("Docs.Put", [Param.scalar (Scalar.str "file:::Docs.Put_0_files_0_0")]),
          ("Logs.Put", [Param.scalar (Scalar.str "file:::Logs.Put_0_files_0_0")])],
        FormPart.file (some "file:::Logs.Put_0_files_0_0") 1,
        FormPart.file (some "file:::Logs.Put_0_files_0_0") 1]] :=
  ⟨rfl, rfl⟩

/-- C8 (amended): for a batch submitted for the first time (no descriptor has files
attached yet) in which every call has at most one parameter carrying files and no file
handle occurs twice, substitution is a bijection between identifiers and file parts.
With `batchPairs` the files of the batch paired with the identifiers written for them:
these are exactly the `fileId` writes and cover every file handle of the batch once, the
map holds in each substituted slot the slot's identifiers joined, the identifiers are
pairwise distinct, and the file parts of the body are, in order, one part per
identifier, named by it and holding its file. -/
theorem file_parts_bijection (s : Ajax) (uuid : String)
    (hfresh : ∀ a ∈ s.args, a.files = none)
    (hone : ∀ a ∈ s.args, a.oneFileParam)
    (hdistinct : (batchHandles s.args).Nodup) :
    (beginRequest s uuid).heap = (batchPairs (numbered s.args)).reverse ++ s.heap ∧
    (batchPairs (numbered s.args)).map Prod.fst = batchHandles s.args ∧
    resolveMap (beginRequest s uuid).args (beginRequest s uuid).map =
      ((numbered s.args).map fun a =>
        (a.method, a.parameters.map (substParam a.method a.instanceNumber))) ∧
    ((batchPairs (numbered s.args)).map Prod.snd).Nodup ∧
    fileParts (beginRequest s uuid).heap (beginRequest s uuid).args =
      (batchPairs (numbered s.args)).map fun e => FormPart.file (some e.2) e.1 :=
  ⟨beginRequest_heap_eq s uuid, batchPairs_fst s.args, beginRequest_resolveMap s uuid,
    batchPairs_snd_nodup s.args hone, beginRequest_fileParts s uuid hfresh hdistinct⟩

theorem file_parts_bijection_witness :
    (beginRequest (fresh uploadFilesExample) "id").heap =
      (batchPairs (numbered (fresh uploadFilesExample).args)).reverse ++
        (fresh uploadFilesExample).heap ∧
    (batchPairs (numbered (fresh uploadFilesExample).args)).map Prod.fst =
      batchHandles (fresh uploadFilesExample).args ∧
    resolveMap (beginRequest (fresh uploadFilesExample) "id").args
        (beginRequest (fresh uploadFilesExample) "id").map =
      ((numbered (fresh uploadFilesExample).args).map fun a =>
        (a.method, a.parameters.map (substParam a.method a.instanceNumber))) ∧
    ((batchPairs (numbered (fresh uploadFilesExample).args)).map Prod.snd).Nodup ∧
    fileParts (beginRequest (fresh uploadFilesExample) "id").heap
        (beginRequest (fresh uploadFilesExample) "id").args =
      (batchPairs (numbered (fresh uploadFilesExample).args)).map
        fun e => FormPart.file (some e.2) e.1 :=
  file_parts_bijection (fresh uploadFilesExample) "id" (by decide) (by decide) (by decide)

theorem uploadFilesExample_sent :
    (beginRequest (fresh uploadFilesExample) "id").sent =
      [[FormPart.id (some "id"),
        FormPart.map [("FileManager.UploadFiles",
          [Param.array [Item.scalar (Scalar.str "~\\"), Item.scalar (Scalar.str "~\\")],
           Param.scalar (Scalar.str
            ("file:::FileManager.UploadFiles_0_files_0_0" ++
             "file:::FileManager.UploadFiles_0_files_1_0" ++
             "file:::FileManager.UploadFiles_0_files_1_1"))])],
        FormPart.file (some "file:::FileManager.UploadFiles_0_files_0_0") 1,
        FormPart.file (some "file:::FileManager.UploadFiles_0_files_1_0") 2,
        FormPart.file (some "file:::FileManager.UploadFiles_0_files_1_1") 3]] := by
  decide

/-! ## The `readystatechange` listener -/

/-- With a user callback supplied the listener applies it to the event and, unless it
returned `false`, applies it a second time without arguments; it never runs the default
handler. -/
theorem readyStateListener_user {J : Type} (f : UserCallback)
    (parse : String → Option (Envelope J)) (s : Ajax) (r : Transport) (e : Nat) :
    ∃ steps : List (Step J), readyStateListener (some f) parse s r e = Except.ok steps ∧
      steps.head? = some (Step.user (some e)) ∧ ∀ st ∈ steps, st.isDefault = false := by
  unfold readyStateListener
  by_cases h : f (some e) ≠ Returned.value (Scalar.bool false)
  · exact ⟨[Step.user (some e), Step.user none], if_pos h, rfl, by simp [Step.isDefault]⟩
  · exact ⟨[Step.user (some e)], if_neg h, rfl, by simp [Step.isDefault]⟩

/-- C11 (the code at the failing input): with a user callback that returns `undefined`,
on the terminal event with status 200 the listener applies the user callback twice and
runs no default handling, so no call's callback is invoked; without a user callback the
same event runs the default handler, which routes the results to the three callbacks. -/
theorem readyStateListener_skips_default :
    readyStateListener (some fun _ => Returned.undefined) (fun _ => some sampleEnvelope)
        (beginRequest (fresh twoFooBar) "id") okTransport 0 =
      Except.ok [Step.user (some 0), Step.user none] ∧
    readyStateListener none (fun _ => some sampleEnvelope)
        (beginRequest (fresh twoFooBar) "id") okTransport 0 =
      Except.ok [Step.default [Effect.call 0 none (some 20) sampleEnvelope,
        Effect.call 1 none (some 30) sampleEnvelope,
        Effect.call 2 none none sampleEnvelope]] :=
  ⟨rfl, rfl⟩

/-! ## The map mirrors the descriptors -/

theorem handles_of_hasFile_false (p : Param) (h : p.hasFile = false) : p.handles = [] := by
  cases p with
  | scalar v => rfl
  | file f => simp [Param.hasFile] at h
  | array items =>
    simp only [Param.hasFile, List.any_eq_false] at h
    simp only [Param.handles, List.flatMap_eq_nil_iff]
    intro it hit
    cases it with
    | scalar v => rfl
    | file f => exact absurd rfl (h _ hit)

theorem substParam_of_handles_nil (m : String) (inst : Option Nat) (p : Param)
    (h : p.handles = []) : substParam m inst p = p := by
  unfold substParam
  rw [paramPairs_length, h]
  rfl

/-- C12: the map built by `beginRequest` has exactly one entry per descriptor, entry `i`
being the method of descriptor `i` paired with the parameter array of descriptor `i`, in
descriptor order; for a call none of whose parameters is or contains a file input that
array is the caller's original list unchanged. -/
theorem map_mirrors_descriptors (s : Ajax) (uuid : String) :
    (resolveMap (beginRequest s uuid).args (beginRequest s uuid).map).length =
        s.args.length ∧
      (beginRequest s uuid).args.length = s.args.length ∧
      ∀ (i : Nat) (a : Call), s.args[i]? = some a →
        ∃ b : Call, (beginRequest s uuid).args[i]? = some b ∧ b.method = a.method ∧
          (resolveMap (beginRequest s uuid).args (beginRequest s uuid).map)[i]? =
            some (b.method, b.parameters) ∧
          ((∀ p ∈ a.parameters, p.hasFile = false) → b.parameters = a.parameters) := by
  refine ⟨?_, beginRequest_args_length s uuid, ?_⟩
  · rw [beginRequest_resolveMap, List.length_map, numbered_length]
  · intro i a ha
    refine ⟨substCall { a with instanceNumber := some (instanceAt s.args i a) }, ?_, ?_, ?_, ?_⟩
    · simp [beginRequest_args_eq, numbered_getElem?, ha]
    · simp
    · simp [beginRequest_resolveMap, numbered_getElem?, ha]
    · intro hp
      rw [substCall_parameters]
      conv_rhs => rw [← List.map_id a.parameters]
      apply List.map_congr_left
      intro p hmem
      exact substParam_of_handles_nil _ _ p (handles_of_hasFile_false p (hp p hmem))

theorem map_mirrors_descriptors_witness :
    (resolveMap (beginRequest (fresh twoFooBar) "id").args
        (beginRequest (fresh twoFooBar) "id").map).length = (fresh twoFooBar).args.length ∧
      (beginRequest (fresh twoFooBar) "id").args.length = (fresh twoFooBar).args.length ∧
      ∀ (i : Nat) (a : Call), (fresh twoFooBar).args[i]? = some a →
        ∃ b : Call, (beginRequest (fresh twoFooBar) "id").args[i]? = some b ∧
          b.method = a.method ∧
          (resolveMap (beginRequest (fresh twoFooBar) "id").args
            (beginRequest (fresh twoFooBar) "id").map)[i]? = some (b.method, b.parameters) ∧
          ((∀ p ∈ a.parameters, p.hasFile = false) → b.parameters = a.parameters) :=
  map_mirrors_descriptors (fresh twoFooBar) "id"

/-! ## Distinct lookup keys -/

theorem instanceAt_lt_count (l : List Call) (i : Nat) (a : Call) (ha : l[i]? = some a) :
    instanceAt l i a < (l.map Call.method).count a.method := by
  have hi : i < l.length := (List.getElem?_eq_some.mp ha).1
  have := instanceAt_lt l i l.length a hi ha
  rw [List.take_length] at this
  exact this

/-- The lookup key of the descriptor at index `i` after `beginRequest`, in terms of the
batch as supplied. -/
theorem beginRequest_lookupKey (s : Ajax) (uuid : String) (i : Nat) (a : Call)
    (ha : s.args[i]? = some a) :
    ∃ b : Call, (beginRequest s uuid).args[i]? = some b ∧
      lookupKey (beginRequest s uuid).methodInstances b =
        if (s.args.map Call.method).count a.method = 1 then a.method
        else a.method ++ "_" ++ toString (instanceAt s.args i a) := by
  have hid := beginRequest_ident s uuid i a ha
  cases hb : (beginRequest s uuid).args[i]? with
  | none => rw [hb] at hid; simp at hid
  | some b =>
    rw [hb] at hid
    simp only [Option.map_some', Option.some.injEq, Call.ident, Prod.mk.injEq] at hid
    obtain ⟨hm, hin, _⟩ := hid
    refine ⟨b, rfl, ?_⟩
    have hagree := beginRequest_countersAgree s uuid a.method
    have hpos := instanceAt_lt_count s.args i a ha
    rw [if_neg (by omega)] at hagree
    rw [← hm] at hagree
    by_cases h1 : (s.args.map Call.method).count a.method = 1
    · rw [if_pos h1, ← hm]
      apply lookupKey_of_lookup_zero
      rw [hagree, hm, h1]
    · rw [if_neg h1, ← hm]
      apply lookupKey_of_lookup_pos _ b ((s.args.map Call.method).count a.method - 2) _ _ hin
      rw [hagree, hm]
      congr 1
      omega

theorem suffixed_key_injective (m m2 : String) (i i2 : Nat)
    (h : m ++ "_" ++ toString i = m2 ++ "_" ++ toString i2) : m = m2 ∧ i = i2 := by
  have hd := congrArg String.data h
  have e : ∀ (n : String) (k : Nat),
      (n ++ "_" ++ toString k).data = n.data ++ '_' :: (Nat.repr k).data := by
    intro n k
    simp [String.data_append]
    rfl
  rw [e, e] at hd
  obtain ⟨h1, h2⟩ := split_last_underscore _ _ _ _ (repr_no_underscore i)
    (repr_no_underscore i2) hd
  exact ⟨String.ext h1, repr_data_injective _ _ h2⟩

theorem lookupKey_ne_of_lt (s : Ajax) (uuid : String)
    (hyp : ∀ m ∈ s.args.map Call.method, 1 < (s.args.map Call.method).count m →
      ∀ n ∈ s.args.map Call.method, (s.args.map Call.method).count n = 1 →
      ∀ k < (s.args.map Call.method).count m, n ≠ m ++ "_" ++ toString k)
    (i j : Nat) (a b : Call) (hi : (beginRequest s uuid).args[i]? = some a)
    (hj : (beginRequest s uuid).args[j]? = some b) (hij : i < j) :
    lookupKey (beginRequest s uuid).methodInstances a ≠
      lookupKey (beginRequest s uuid).methodInstances b := by
  have hlen := beginRequest_args_length s uuid
  have hil : i < s.args.length := by
    rw [← hlen]; exact (List.getElem?_eq_some.mp hi).1
  have hjl : j < s.args.length := by
    rw [← hlen]; exact (List.getElem?_eq_some.mp hj).1
  have ha0 : s.args[i]? = some s.args[i] := List.getElem?_eq_getElem hil
  have hb0 : s.args[j]? = some s.args[j] := List.getElem?_eq_getElem hjl
  obtain ⟨a1, ha1, ka⟩ := beginRequest_lookupKey s uuid i _ ha0
  obtain ⟨b1, hb1, kb⟩ := beginRequest_lookupKey s uuid j _ hb0
  rw [hi] at ha1
  rw [hj] at hb1
  cases ha1
  cases hb1
  rw [ka, kb]
  have hma : s.args[i].method ∈ s.args.map Call.method :=
    List.mem_map_of_mem _ (List.getElem_mem hil)
  have hmb : s.args[j].method ∈ s.args.map Call.method :=
    List.mem_map_of_mem _ (List.getElem_mem hjl)
  have hca := instanceAt_lt_count s.args i _ ha0
  have hcb := instanceAt_lt_count s.args j _ hb0
  have hlt := instanceAt_lt s.args i j _ hij ha0
  have hpa : 0 < (s.args.map Call.method).count s.args[i].method := List.count_pos_iff.mpr hma
  have hpb : 0 < (s.args.map Call.method).count s.args[j].method := List.count_pos_iff.mpr hmb
  by_cases h1 : (s.args.map Call.method).count s.args[i].method = 1
  · by_cases h2 : (s.args.map Call.method).count s.args[j].method = 1
    · rw [if_pos h1, if_pos h2]
      intro heq
      unfold instanceAt at hca hcb
      rw [← heq] at hcb h2
      omega
    · rw [if_pos h1, if_neg h2]
      exact hyp _ hmb (by omega) _ hma h1 _ hcb
  · by_cases h2 : (s.args.map Call.method).count s.args[j].method = 1
    · rw [if_neg h1, if_pos h2]
      exact fun heq => hyp _ hma (by omega) _ hmb h2 _ hca heq.symm
    · rw [if_neg h1, if_neg h2]
      unfold instanceAt at hca hcb
      intro heq
      obtain ⟨hm, hk⟩ := suffixed_key_injective _ _ _ _ heq
      unfold instanceAt at hk
      rw [← hm] at hk
      omega

/-- C13, as stated, fails: with two calls of `Foo.Bar` and one call of a method named
`Foo.Bar_1`, the descriptors at index 1 and index 2 both read the key `Foo.Bar_1`, and
both callbacks are handed the same entry of the response. -/
theorem lookup_keys_clash :
    (beginRequest (fresh keyClashExample) "id").args.map
        (lookupKey (beginRequest (fresh keyClashExample) "id").methodInstances) =
      ["Foo.Bar_0", "Foo.Bar_1", "Foo.Bar_1"] ∧
    readyStateChange (fun _ => some sampleEnvelope)
        (beginRequest (fresh keyClashExample) "id") okTransport =
      Except.ok [Effect.call 0 none (some 20) sampleEnvelope,
        Effect.call 1 none (some 30) sampleEnvelope,
        Effect.call 2 none (some 30) sampleEnvelope] :=
  ⟨rfl, rfl⟩

/-! ## A second `beginRequest` -/

theorem substParam_handles (m : String) (inst : Option Nat) (p : Param) :
    (substParam m inst p).handles = [] := by
  unfold substParam
  split
  · rfl
  · rename_i h
    rw [paramPairs_length] at h
    exact List.length_eq_zero.mp (by omega)

theorem callPairs_of_handles_nil (a : Call) (h : ∀ p ∈ a.parameters, p.handles = []) :
    callPairs a = [] := by
  unfold callPairs
  rw [List.flatMap_eq_nil_iff]
  intro p hp
  exact List.length_eq_zero.mp (by rw [paramPairs_length, h p hp]; rfl)

theorem substCall_of_handles_nil (a : Call) (h : ∀ p ∈ a.parameters, p.handles = []) :
    substCall a = a := by
  have hp : a.parameters.map (substParam a.method a.instanceNumber) = a.parameters := by
    conv_rhs => rw [← List.map_id a.parameters]
    apply List.map_congr_left
    intro p hmem
    exact substParam_of_handles_nil _ _ p (h p hmem)
  unfold substCall
  rw [callPairs_of_handles_nil a h, hp]
  rfl

theorem substCall_handles (a : Call) : ∀ p ∈ (substCall a).parameters, p.handles = [] := by
  intro p hp
  rw [substCall_parameters] at hp
  obtain ⟨q, _, rfl⟩ := List.mem_map.mp hp
  exact substParam_handles _ _ q

theorem substCall_instanceNumber (a : Call) :
    (substCall a).instanceNumber = a.instanceNumber := by
  simp [substCall]

theorem instanceAt_congr (l l2 : List Call) (i : Nat) (a a2 : Call)
    (hl : l.map Call.method = l2.map Call.method) (ha : a.method = a2.method) :
    instanceAt l i a = instanceAt l2 i a2 := by
  unfold instanceAt
  rw [List.map_take, List.map_take, hl, ha]

/-- Numbering and substituting a batch that has been through `beginRequest` changes
nothing. -/
theorem numbered_substCall_fixed (l : List Call) :
    (numbered ((numbered l).map substCall)).map substCall = (numbered l).map substCall := by
  have hmeth : ((numbered l).map substCall).map Call.method = (numbered l).map Call.method := by
    simp [Function.comp_def]
  have hnum : numbered ((numbered l).map substCall) = (numbered l).map substCall := by
    apply List.ext_getElem?
    intro i
    rw [numbered_getElem?]
    cases hb : ((numbered l).map substCall)[i]? with
    | none => rfl
    | some b =>
      simp only [Option.map_some', Option.some.injEq]
      rw [List.getElem?_map, numbered_getElem?] at hb
      cases ha : l[i]? with
      | none => rw [ha] at hb; simp at hb
      | some a =>
        rw [ha] at hb
        simp only [Option.map_some', Option.some.injEq] at hb
        have hinst : b.instanceNumber = some (instanceAt l i a) := by
          rw [← hb, substCall_instanceNumber]
        have hm : b.method = a.method := by rw [← hb, substCall_method]
        have hmeth2 : ((numbered l).map substCall).map Call.method = l.map Call.method := by
          rw [hmeth]
          apply List.ext_getElem?
          intro k
          simp only [List.getElem?_map, numbered_getElem?]
          cases l[k]? <;> rfl
        rw [instanceAt_congr _ l i b a hmeth2 hm, ← hinst]
  rw [hnum]
  conv_rhs => rw [← List.map_id ((numbered l).map substCall)]
  apply List.map_congr_left
  intro b hb
  obtain ⟨a, _, rfl⟩ := List.mem_map.mp hb
  exact substCall_of_handles_nil _ (substCall_handles a)

theorem batchPairs_numbered_substCall (l : List Call) :
    batchPairs (numbered ((numbered l).map substCall)) = [] := by
  unfold batchPairs
  rw [List.flatMap_eq_nil_iff]
  intro b hb
  apply callPairs_of_handles_nil
  intro p hp
  have hparams : b.parameters ∈ ((numbered l).map substCall).map Call.parameters := by
    rw [← numbered_map_parameters]
    exact List.mem_map_of_mem _ hb
  obtain ⟨c, hc, hcp⟩ := List.mem_map.mp hparams
  obtain ⟨a, _, rfl⟩ := List.mem_map.mp hc
  rw [← hcp] at hp
  exact substCall_handles a p hp

theorem beginRequest_resolveMap_args (s : Ajax) (uuid : String) :
    resolveMap (beginRequest s uuid).args (beginRequest s uuid).map =
      (beginRequest s uuid).args.map fun b => (b.method, b.parameters) := by
  rw [beginRequest_resolveMap, beginRequest_args_eq, List.map_map]
  apply List.map_congr_left
  intro a _
  simp

theorem beginRequest_twice_args (s : Ajax) (u1 u2 : String) :
    (beginRequest (beginRequest s u1) u2).args = (beginRequest s u1).args := by
  rw [beginRequest_args_eq (beginRequest s u1) u2, beginRequest_args_eq s u1]
  exact numbered_substCall_fixed s.args

theorem beginRequest_twice_heap (s : Ajax) (u1 u2 : String) :
    (beginRequest (beginRequest s u1) u2).heap = (beginRequest s u1).heap := by
  rw [beginRequest_heap_eq (beginRequest s u1) u2, beginRequest_args_eq s u1,
    batchPairs_numbered_substCall]
  rfl

/-- C14: a second `beginRequest` on the same object leaves every descriptor as the first
one left it (the same `instanceNumber`, parameters and attached files), serializes the
same map and appends the same sequence of file parts, with the same names and handles
and none attached a second time; the body it sends differs from the first only in the
batch id. -/
theorem beginRequest_twice (s : Ajax) (u1 u2 : String) :
    (beginRequest (beginRequest s u1) u2).args = (beginRequest s u1).args ∧
    (beginRequest (beginRequest s u1) u2).args.map Call.instanceNumber =
      (beginRequest s u1).args.map Call.instanceNumber ∧
    resolveMap (beginRequest (beginRequest s u1) u2).args
        (beginRequest (beginRequest s u1) u2).map =
      resolveMap (beginRequest s u1).args (beginRequest s u1).map ∧
    fileParts (beginRequest (beginRequest s u1) u2).heap
        (beginRequest (beginRequest s u1) u2).args =
      fileParts (beginRequest s u1).heap (beginRequest s u1).args ∧
    (beginRequest (beginRequest s u1) u2).sent =
      s.sent ++
        [[FormPart.id (some u1),
            FormPart.map (resolveMap (beginRequest s u1).args (beginRequest s u1).map)] ++
          fileParts (beginRequest s u1).heap (beginRequest s u1).args,
         [FormPart.id (some u2),
            FormPart.map (resolveMap (beginRequest s u1).args (beginRequest s u1).map)] ++
          fileParts (beginRequest s u1).heap (beginRequest s u1).args] := by
  have hargs := beginRequest_twice_args s u1 u2
  have hheap := beginRequest_twice_heap s u1 u2
  have hmap : resolveMap (beginRequest (beginRequest s u1) u2).args
      (beginRequest (beginRequest s u1) u2).map =
      resolveMap (beginRequest s u1).args (beginRequest s u1).map := by
    rw [beginRequest_resolveMap_args, beginRequest_resolveMap_args, hargs]
  refine ⟨hargs, by rw [hargs], hmap, by rw [hargs, hheap], ?_⟩
  rw [beginRequest_sent (beginRequest s u1) u2, hmap, hargs, hheap, beginRequest_sent s u1]
  simp

theorem uploadFilesExample_sent_twice :
    (beginRequest (beginRequest (fresh uploadFilesExample) "id1") "id2").sent =
      [[FormPart.id (some "id1"),
        FormPart.map [("FileManager.UploadFiles",
          [Param.array [Item.scalar (Scalar.str "~\\"), Item.scalar (Scalar.str "~\\")],
           Param.scalar (Scalar.str
            ("file:::FileManager.UploadFiles_0_files_0_0" ++
             "file:::FileManager.UploadFiles_0_files_1_0" ++
             "file:::FileManager.UploadFiles_0_files_1_1"))])],
        FormPart.file (some "file:::FileManager.UploadFiles_0_files_0_0") 1,
        FormPart.file (some "file:::FileManager.UploadFiles_0_files_1_0") 2,
        FormPart.file (some "file:::FileManager.UploadFiles_0_files_1_1") 3],
       [FormPart.id (some "id2"),
        FormPart.map [("FileManager.UploadFiles",
          [Param.array [Item.scalar (Scalar.str "~\\"), Item.scalar (Scalar.str "~\\")],
           Param.scalar (Scalar.str
            ("file:::FileManager.UploadFiles_0_files_0_0" ++
             "file:::FileManager.UploadFiles_0_files_1_0" ++
             "file:::FileManager.UploadFiles_0_files_1_1"))])],
        FormPart.file (some "file:::FileManager.UploadFiles_0_files_0_0") 1,
        FormPart.file (some "file:::FileManager.UploadFiles_0_files_1_0") 2,
        FormPart.file (some "file:::FileManager.UploadFiles_0_files_1_1") 3]] := by
  decide

namespace UI.taskBar

/-! ## The task bar: `add` and `remove` -/

theorem map_eraseIdx {α β : Type} (f : α → β) (l : List α) :
    ∀ k : Nat, (l.eraseIdx k).map f = (l.map f).eraseIdx k := by
  induction l with
  | nil => intro k; rfl
  | cons a l ih =>
    intro k
    cases k with
    | zero => rfl
    | succ k => simp [List.eraseIdx, ih]

theorem removeLoop_past_end (raiseEvent : String → TaskBarItem → Bool) (item : TaskBarItem)
    (fuel x : Nat) (s : TaskBar) (h : s.items.length ≤ x) :
    removeLoop raiseEvent item fuel x s = some (Except.ok s) := by
  cases fuel with
  | zero => simp [removeLoop, Nat.not_lt.mpr h]
  | succ fuel => simp [removeLoop, List.getElem?_eq_none_iff.mpr h]

/-- With as many iterations as there are items the loop of `remove` comes to its end. -/
theorem removeLoop_total (raiseEvent : String → TaskBarItem → Bool) (item : TaskBarItem)
    (fuel : Nat) :
    ∀ (x : Nat) (s : TaskBar), s.items.length ≤ fuel + x →
      removeLoop raiseEvent item fuel x s ≠ none := by
  induction fuel with
  | zero =>
    intro x s h
    simp only [Nat.zero_add] at h
    simp [removeLoop, Nat.not_lt.mpr h]
  | succ fuel ih =>
    intro x s h
    simp only [removeLoop]
    cases hy : s.items[x]? with
    | none => simp
    | some y =>
      have hx : x < s.items.length := (List.getElem?_eq_some.mp hy).1
      simp only
      split
      · split
        · simp
        · split
          · apply ih
            simp only [List.length_eraseIdx, hx, if_true]
            omega
          · simp
      · apply ih
        omega

theorem remove_total (raiseEvent : String → TaskBarItem → Bool) (s : TaskBar)
    (item : TaskBarItem) : remove raiseEvent s item ≠ none :=
  removeLoop_total raiseEvent item s.items.length 0 s (Nat.le_refl _)

theorem consistent_init : Consistent init := by
  simp [Consistent, init]

theorem add_cancelled (raiseEvent : String → TaskBarItem → Bool) (s : TaskBar) (obj : Nat)
    (click : Option Nat) (text : String) (over out : Option Nat)
    (h : raiseEvent "addItem" (newItem s obj click text over out) = true) :
    add raiseEvent s obj click text over out =
      ({ s with allocated := s.allocated + 1 }, AddResult.self) := by
  simp [add, h]

theorem add_ok (raiseEvent : String → TaskBarItem → Bool) (s : TaskBar) (obj : Nat)
    (click : Option Nat) (text : String) (over out : Option Nat)
    (h : raiseEvent "addItem" (newItem s obj click text over out) = false) :
    add raiseEvent s obj click text over out =
      ({ items := s.items ++ [newItem s obj click text over out],
         children := s.children ++ [s.allocated], allocated := s.allocated + 1 },
        AddResult.item (newItem s obj click text over out)) := by
  simp only [add, h]
  rfl

theorem consistent_add (raiseEvent : String → TaskBarItem → Bool) (s : TaskBar) (obj : Nat)
    (click : Option Nat) (text : String) (over out : Option Nat) (h : Consistent s) :
    Consistent (add raiseEvent s obj click text over out).1 := by
  obtain ⟨hn, hc, hb⟩ := h
  cases hcancel : raiseEvent "addItem" (newItem s obj click text over out) with
  | true =>
    rw [add_cancelled raiseEvent s obj click text over out hcancel]
    exact ⟨hn, hc, fun i hi => Nat.lt_succ_of_lt (hb i hi)⟩
  | false =>
    rw [add_ok raiseEvent s obj click text over out hcancel]
    have huid : (newItem s obj click text over out).uid = s.allocated := rfl
    refine ⟨?_, ?_, ?_⟩
    · show ((s.items ++ [newItem s obj click text over out]).map TaskBarItem.uid).Nodup
      simp only [List.map_append, List.map_cons, List.map_nil, huid]
      refine List.nodup_append.mpr ⟨hn, List.nodup_singleton _, ?_⟩
      intro u hu hu2
      simp only [List.mem_singleton] at hu2
      obtain ⟨i, hi, rfl⟩ := List.mem_map.mp hu
      have := hb i hi
      omega
    · show s.children ++ [s.allocated] =
        (s.items ++ [newItem s obj click text over out]).map TaskBarItem.uid
      simp [hc, huid]
    · intro i hi
      show i.uid < s.allocated + 1
      rcases List.mem_append.mp hi with h1 | h1
      · exact Nat.lt_succ_of_lt (hb i h1)
      · simp only [List.mem_singleton] at h1
        rw [h1, huid]
        exact Nat.lt_succ_self _

theorem consistent_removeLoop (raiseEvent : String → TaskBarItem → Bool) (item : TaskBarItem)
    (fuel : Nat) :
    ∀ (x : Nat) (s s2 : TaskBar), Consistent s →
      removeLoop raiseEvent item fuel x s = some (Except.ok s2) → Consistent s2 := by
  induction fuel with
  | zero =>
    intro x s s2 hs h
    simp only [removeLoop] at h
    split at h
    · simp at h
    · simp only [Option.some.injEq, Except.ok.injEq] at h
      rw [← h]; exact hs
  | succ fuel ih =>
    intro x s s2 hs h
    simp only [removeLoop] at h
    cases hy : s.items[x]? with
    | none =>
      rw [hy] at h
      simp only [Option.some.injEq, Except.ok.injEq] at h
      rw [← h]; exact hs
    | some y =>
      rw [hy] at h
      simp only at h
      have hx : x < s.items.length := (List.getElem?_eq_some.mp hy).1
      split at h
      · rename_i huid
        split at h
        · simp only [Option.some.injEq, Except.ok.injEq] at h
          rw [← h]; exact hs
        · split at h
          · refine ih _ _ s2 ?_ h
            obtain ⟨hn, hc, hb⟩ := hs
            refine ⟨?_, ?_, ?_⟩
            · exact hn.sublist ((List.eraseIdx_sublist s.items x).map TaskBarItem.uid)
            · have hx2 : x < (s.items.map TaskBarItem.uid).length := by simpa using hx
              have hget : (s.items.map TaskBarItem.uid)[x] = item.uid := by
                rw [List.getElem_map, ← huid]
                have := (List.getElem?_eq_some.mp hy).2
                rw [this]
              show s.children.erase item.uid = _
              rw [hc, map_eraseIdx, ← hget]
              exact hn.erase_getElem x hx2
            · intro i hi
              exact hb i ((List.eraseIdx_sublist s.items x).subset hi)
          · simp at h
      · exact ih _ _ s2 hs h

theorem consistent_of_reachable (s : TaskBar) (h : Reachable s) : Consistent s := by
  induction h with
  | init => exact consistent_init
  | add raiseEvent s obj click text over out _ ih =>
    exact consistent_add raiseEvent s obj click text over out ih
  | remove raiseEvent s s2 item _ hrem ih =>
    exact consistent_removeLoop raiseEvent item _ 0 s s2 ih hrem

/-- Removing the last item: the loop passes over the items before it, which are other
objects, takes it out of the array together with its element, and ends. -/
theorem removeLoop_last (raiseEvent : String → TaskBarItem → Bool) (item : TaskBarItem)
    (hno : ∀ i, raiseEvent "removeItem" i = false) (rest : List TaskBarItem) :
    ∀ (pre : List TaskBarItem) (ch : List Nat) (n fuel : Nat),
      (∀ y ∈ rest, y.uid ≠ item.uid) → item.uid ∈ ch → rest.length + 1 ≤ fuel →
      removeLoop raiseEvent item fuel pre.length
          { items := pre ++ rest ++ [item], children := ch, allocated := n } =
        some (Except.ok
          { items := pre ++ rest, children := ch.erase item.uid, allocated := n }) := by
  induction rest with
  | nil =>
    intro pre ch n fuel _ hmem hfuel
    obtain ⟨f, rfl⟩ : ∃ f, fuel = f + 1 := ⟨fuel - 1, by simp at hfuel; omega⟩
    have hget : (pre ++ [] ++ [item])[pre.length]? = some item := by simp
    have herase : (pre ++ [] ++ [item]).eraseIdx pre.length = pre := by
      rw [List.append_nil, List.eraseIdx_append_of_length_le (Nat.le_refl _)]
      simp
    simp only [removeLoop, hget, hno, hmem, if_true, herase]
    rw [removeLoop_past_end raiseEvent item f (pre.length + 1)
      { items := pre, children := ch.erase item.uid, allocated := n } (Nat.le_succ _)]
    simp
  | cons y ys ih =>
    intro pre ch n fuel hne hmem hfuel
    obtain ⟨f, rfl⟩ : ∃ f, fuel = f + 1 := ⟨fuel - 1, by simp at hfuel; omega⟩
    have hget : (pre ++ y :: ys ++ [item])[pre.length]? = some y := by
      rw [List.append_assoc, List.getElem?_append_right (Nat.le_refl _)]
      simp
    have hy : y.uid ≠ item.uid := hne y (List.mem_cons_self _ _)
    simp only [removeLoop, hget, hy, if_false]
    have := ih (pre ++ [y]) ch n f (fun z hz => hne z (List.mem_cons_of_mem _ hz)) hmem
      (by simp at hfuel; omega)
    simpa using this

/-- C15: in every task bar state reached through `add` and `remove`, when the handlers of
`addItem` and `removeItem` do not cancel, `add` returns a new item, which is not among
the items before and is appended as the last element of `items`; `remove` called with
that item ends normally and leaves `items` exactly the list it was before the `add`. -/
theorem add_then_remove (s : TaskBar) (hr : Reachable s)
    (raiseEvent : String → TaskBarItem → Bool) (obj : Nat) (click : Option Nat)
    (text : String) (over out : Option Nat)
    (hadd : ∀ i, raiseEvent "addItem" i = false)
    (hrem : ∀ i, raiseEvent "removeItem" i = false) :
    ∃ (item : TaskBarItem) (s1 s2 : TaskBar),
      add raiseEvent s obj click text over out = (s1, AddResult.item item) ∧
      item ∉ s.items ∧ s1.items = s.items ++ [item] ∧ s1.items.getLast? = some item ∧
      remove raiseEvent s1 item = some (Except.ok s2) ∧ s2.items = s.items := by
  obtain ⟨_, _, hb⟩ := consistent_of_reachable s hr
  have huid : (newItem s obj click text over out).uid = s.allocated := rfl
  have hnew : ∀ y ∈ s.items, y.uid ≠ (newItem s obj click text over out).uid := by
    intro y hy
    have := hb y hy
    omega
  refine ⟨newItem s obj click text over out, _,
    { items := s.items, children := (s.children ++ [s.allocated]).erase s.allocated,
      allocated := s.allocated + 1 },
    add_ok raiseEvent s obj click text over out (hadd _), ?_, rfl, by simp, ?_, rfl⟩
  · intro hmem
    exact hnew _ hmem rfl
  · have := removeLoop_last raiseEvent (newItem s obj click text over out) hrem s.items []
      (s.children ++ [s.allocated]) (s.allocated + 1) (s.items.length + 1) hnew
      (by rw [huid]; simp) (Nat.le_refl _)
    simpa [remove] using this

theorem sampleBar_reachable : Reachable sampleBar :=
  Reachable.remove noCancel
    (add noCancel (add noCancel init 10 none "Files" none none).1 11 none "Mail" none none).1
    sampleBar (newItem init 10 none "Files" none none)
    (Reachable.add noCancel _ 11 none "Mail" none none
      (Reachable.add noCancel init 10 none "Files" none none Reachable.init))
    rfl

theorem add_then_remove_witness :
    ∃ (item : TaskBarItem) (s1 s2 : TaskBar),
      add noCancel sampleBar 12 none "Chat" none none = (s1, AddResult.item item) ∧
      item ∉ sampleBar.items ∧ s1.items = sampleBar.items ++ [item] ∧
      s1.items.getLast? = some item ∧
      remove noCancel s1 item = some (Except.ok s2) ∧ s2.items = sampleBar.items :=
  add_then_remove sampleBar sampleBar_reachable noCancel 12 none "Chat" none none
    (fun _ => rfl) (fun _ => rfl)

end UI.taskBar

/-! ## Descriptor objects -/

@[simp] theorem Store.set_same (objs : Store) (o : Nat) (c : Call) : objs.set o c o = c := by
  simp [Store.set]

theorem Store.set_other (objs : Store) (o k : Nat) (c : Call) (h : k ≠ o) :
    objs.set o c k = objs k := by
  simp [Store.set, h]

theorem map_set_of_not_mem (objs : Store) (o : Nat) (c : Call) (l : List Nat) (h : o ∉ l) :
    l.map (objs.set o c) = l.map objs := by
  apply List.map_congr_left
  intro k hk
  exact Store.set_other objs o k c (fun e => h (e ▸ hk))

/-- The numbering loop leaves the objects it does not visit as they are. -/
theorem numberLoopRef_frame (refs : List Nat) :
    ∀ (x : Nat) (mi : Counters) (mp : List MapEntry) (objs : Store) (o : Nat), o ∉ refs →
      (numberLoopRef x refs mi mp objs).1 o = objs o := by
  induction refs with
  | nil => intro x mi mp objs o _; rfl
  | cons r rest ih =>
    intro x mi mp objs o ho
    simp only [List.mem_cons, not_or] at ho
    simp only [numberLoopRef]
    rw [ih _ _ _ _ o ho.2, Store.set_other _ _ _ _ ho.1]

/-- The numbering loop changes nothing but `instanceNumber`. -/
theorem numberLoopRef_method (refs : List Nat) :
    ∀ (x : Nat) (mi : Counters) (mp : List MapEntry) (objs : Store) (o : Nat),
      ((numberLoopRef x refs mi mp objs).1 o).method = (objs o).method ∧
      ((numberLoopRef x refs mi mp objs).1 o).parameters = (objs o).parameters ∧
      ((numberLoopRef x refs mi mp objs).1 o).procedure = (objs o).procedure ∧
      ((numberLoopRef x refs mi mp objs).1 o).context = (objs o).context ∧
      ((numberLoopRef x refs mi mp objs).1 o).files = (objs o).files := by
  induction refs with
  | nil => intro x mi mp objs o; exact ⟨rfl, rfl, rfl, rfl, rfl⟩
  | cons r rest ih =>
    intro x mi mp objs o
    simp only [numberLoopRef]
    have h := ih (x + 1) (bumpInstance mi (objs r).method) (mp ++ [((objs r).method, x)])
      (objs.set r { objs r with
        instanceNumber := (bumpInstance mi (objs r).method).lookup (objs r).method }) o
    by_cases hor : o = r
    · subst hor
      simpa using h
    · simpa [Store.set_other _ _ _ _ hor] using h

theorem numberLoopRef_counters (refs : List Nat) :
    ∀ (pre : List String) (x : Nat) (mi : Counters) (mp : List MapEntry) (objs : Store),
      CountersAgree pre mi →
      CountersAgree (pre ++ refs.map fun o => (objs o).method)
        (numberLoopRef x refs mi mp objs).2.1 := by
  induction refs with
  | nil => intro pre x mi mp objs h; simpa [numberLoopRef] using h
  | cons r rest ih =>
    intro pre x mi mp objs h
    simp only [numberLoopRef]
    have := ih (pre ++ [(objs r).method]) (x + 1) (bumpInstance mi (objs r).method)
      (mp ++ [((objs r).method, x)])
      (objs.set r { objs r with
        instanceNumber := (bumpInstance mi (objs r).method).lookup (objs r).method })
      (countersAgree_bump pre mi (objs r).method h)
    have hm : (rest.map fun o => ((objs.set r { objs r with
        instanceNumber := (bumpInstance mi (objs r).method).lookup (objs r).method }) o).method)
        = rest.map fun o => (objs o).method := by
      apply List.map_congr_left
      intro k _
      by_cases hk : k = r
      · subst hk; simp
      · rw [Store.set_other _ _ _ _ hk]
    rw [hm] at this
    simpa [List.append_assoc] using this

/-- Every object the numbering loop visits ends with a number. -/
theorem numberLoopRef_numbered (refs : List Nat) :
    ∀ (pre : List String) (x : Nat) (mi : Counters) (mp : List MapEntry) (objs : Store)
      (o : Nat), CountersAgree pre mi → o ∈ refs →
      ∃ k, ((numberLoopRef x refs mi mp objs).1 o).instanceNumber = some k := by
  induction refs with
  | nil => intro pre x mi mp objs o _ h; simp at h
  | cons r rest ih =>
    intro pre x mi mp objs o hag ho
    simp only [numberLoopRef]
    by_cases hrest : o ∈ rest
    · exact ih (pre ++ [(objs r).method]) _ _ _ _ o
        (countersAgree_bump pre mi (objs r).method hag) hrest
    · have hor : o = r := by
        rcases List.mem_cons.mp ho with h | h
        · exact h
        · exact absurd h hrest
      subst hor
      rw [numberLoopRef_frame rest _ _ _ _ o hrest]
      exact ⟨pre.count (objs o).method, by
        simp [lookup_bumpInstance pre mi (objs o).method hag]⟩

theorem parseFilesRef_frame (refs : List Nat) :
    ∀ (objs : Store) (h : Heap) (o : Nat), o ∉ refs →
      (parseFilesRef refs objs h).1 o = objs o := by
  induction refs with
  | nil => intro objs h o _; rfl
  | cons r rest ih =>
    intro objs h o ho
    simp only [List.mem_cons, not_or] at ho
    simp only [parseFilesRef]
    rw [ih _ _ o ho.2, Store.set_other _ _ _ _ ho.1]

/-- The file loop leaves method, instance number, context and procedure of every
object as they are. -/
theorem parseFilesRef_ident (refs : List Nat) :
    ∀ (objs : Store) (h : Heap) (o : Nat),
      ((parseFilesRef refs objs h).1 o).ident = (objs o).ident := by
  induction refs with
  | nil => intro objs h o; rfl
  | cons r rest ih =>
    intro objs h o
    simp only [parseFilesRef]
    rw [ih]
    by_cases hor : o = r
    · subst hor; simp
    · rw [Store.set_other _ _ _ _ hor]

/-- On distinct descriptor objects the numbering loop is the loop on the descriptors
held by value. -/
theorem numberLoopRef_eq (refs : List Nat) :
    ∀ (x : Nat) (mi : Counters) (mp : List MapEntry) (objs : Store), refs.Nodup →
      refs.map (numberLoopRef x refs mi mp objs).1 = (numberLoop x (refs.map objs) mi mp).1 ∧
      (numberLoopRef x refs mi mp objs).2 = (numberLoop x (refs.map objs) mi mp).2 := by
  induction refs with
  | nil => intro x mi mp objs _; exact ⟨rfl, rfl⟩
  | cons r rest ih =>
    intro x mi mp objs hnd
    rw [List.nodup_cons] at hnd
    have h := ih (x + 1) (bumpInstance mi (objs r).method) (mp ++ [((objs r).method, x)])
      (objs.set r { objs r with
        instanceNumber := (bumpInstance mi (objs r).method).lookup (objs r).method }) hnd.2
    rw [map_set_of_not_mem _ _ _ _ hnd.1] at h
    simp only [numberLoopRef, numberLoop, List.map_cons]
    refine ⟨?_, ?_⟩
    · rw [numberLoopRef_frame rest _ _ _ _ r hnd.1, Store.set_same, h.1]
    · rw [h.2]

/-- On distinct descriptor objects the file loop is the loop on the descriptors held by
value. -/
theorem parseFilesRef_eq (refs : List Nat) :
    ∀ (objs : Store) (h : Heap), refs.Nodup →
      refs.map (parseFilesRef refs objs h).1 = (parseFiles (refs.map objs) h).1 ∧
      (parseFilesRef refs objs h).2 = (parseFiles (refs.map objs) h).2 := by
  induction refs with
  | nil => intro objs h _; exact ⟨rfl, rfl⟩
  | cons r rest ih =>
    intro objs h hnd
    rw [List.nodup_cons] at hnd
    have hi := ih (objs.set r (parseCall (objs r) h).1) (parseCall (objs r) h).2 hnd.2
    rw [map_set_of_not_mem _ _ _ _ hnd.1] at hi
    simp only [parseFilesRef, parseFiles, List.map_cons]
    refine ⟨?_, ?_⟩
    · rw [parseFilesRef_frame rest _ _ r hnd.1, Store.set_same, hi.1]
    · rw [hi.2]

/-- When no descriptor object is listed twice, `beginRequest` on descriptor objects is
`beginRequest` on the descriptors held by value. -/
theorem beginRequestRef_deref (s : AjaxRef) (uuid : String) (hnd : s.args.Nodup) :
    (beginRequestRef s uuid).deref = beginRequest s.deref uuid := by
  have hn := numberLoopRef_eq s.args 0 [] [] s.objs hnd
  have hp := parseFilesRef_eq s.args (numberLoopRef 0 s.args [] [] s.objs).1 s.heap hnd
  rw [hn.1] at hp
  simp only [AjaxRef.deref, beginRequestRef, beginRequest, hp.1, hp.2, hn.2]

theorem beginRequestRef_objs_ident (s : AjaxRef) (uuid : String) (o : Nat) :
    ((beginRequestRef s uuid).objs o).ident =
      ((numberLoopRef 0 s.args [] [] s.objs).1 o).ident :=
  parseFilesRef_ident s.args _ s.heap o

theorem beginRequestRef_method (s : AjaxRef) (uuid : String) (o : Nat) :
    ((beginRequestRef s uuid).objs o).method = (s.objs o).method := by
  have h := congrArg Prod.fst (beginRequestRef_objs_ident s uuid o)
  exact h.trans (numberLoopRef_method s.args 0 [] [] s.objs o).1

theorem beginRequestRef_countersAgree (s : AjaxRef) (uuid : String) :
    CountersAgree (s.args.map fun o => (s.objs o).method)
      (beginRequestRef s uuid).methodInstances := by
  have := numberLoopRef_counters s.args [] 0 [] [] s.objs countersAgree_nil
  simpa [beginRequestRef] using this

theorem beginRequestRef_numbered (s : AjaxRef) (uuid : String) (o : Nat) (ho : o ∈ s.args) :
    ∃ k, ((beginRequestRef s uuid).objs o).instanceNumber = some k := by
  obtain ⟨k, hk⟩ := numberLoopRef_numbered s.args [] 0 [] [] s.objs o countersAgree_nil ho
  have h := congrArg (fun t => t.2.1) (beginRequestRef_objs_ident s uuid o)
  exact ⟨k, h.trans hk⟩

theorem count_method_deref (s : AjaxRef) (l : List Nat) (m : String) :
    ((l.map s.objs).map Call.method).count m =
      l.countP fun o => (s.objs o).method = m := by
  rw [List.count_eq_countP, List.map_map, List.countP_map]
  congr 1

/-- On distinct descriptor objects the object listed at index `i` ends with the number
of earlier descriptors of its method. -/
theorem beginRequestRef_instance (s : AjaxRef) (uuid : String) (i o : Nat)
    (hnd : s.args.Nodup) (h : s.args[i]? = some o) :
    ((beginRequestRef s uuid).objs o).instanceNumber =
      some ((s.args.take i).countP fun o2 => (s.objs o2).method = (s.objs o).method) := by
  have hd := beginRequestRef_deref s uuid hnd
  have hi : s.deref.args[i]? = some (s.objs o) := by simp [AjaxRef.deref, h]
  have hid := beginRequest_ident s.deref uuid i (s.objs o) hi
  rw [← hd] at hid
  have hget : (beginRequestRef s uuid).deref.args[i]? =
      some ((beginRequestRef s uuid).objs o) := by
    show ((beginRequestRef s uuid).args.map (beginRequestRef s uuid).objs)[i]? = _
    have : (beginRequestRef s uuid).args = s.args := rfl
    simp [this, h]
  rw [hget] at hid
  simp only [Option.map_some', Option.some.injEq, Call.ident, Prod.mk.injEq] at hid
  rw [hid.2.1]
  have : s.deref.args.take i = (s.args.take i).map s.objs := by
    simp [AjaxRef.deref, List.map_take]
  rw [this, count_method_deref]

/-- C1, as stated, fails: when one descriptor object is listed twice, line 186 writes
its `instanceNumber` twice, so after `beginRequest` the descriptor at index 0 carries
the number 1, while no descriptor stands before index 0. -/
theorem listed_twice_instanceNumber :
    (freshRef [0, 0] fooBarObjects).args[0]? = some 0 ∧
    ((beginRequestRef (freshRef [0, 0] fooBarObjects) "id").objs 0).instanceNumber = some 1 ∧
    (((freshRef [0, 0] fooBarObjects).args.take 0).countP
      fun o => (fooBarObjects o).method = (fooBarObjects 0).method) = 0 :=
  ⟨rfl, rfl, rfl⟩

/-- C1 (amended): for every batch whose descriptors are distinct objects and every index
`i`, after `beginRequest` the `instanceNumber` of the descriptor at index `i` is the
number of descriptors at indices below `i` that have the same method name. -/
theorem beginRequestRef_instanceNumber (s : AjaxRef) (uuid : String) (i o : Nat)
    (hnd : s.args.Nodup) (h : s.args[i]? = some o) :
    (beginRequestRef s uuid).args[i]? = some o ∧
    ((beginRequestRef s uuid).objs o).instanceNumber =
      some ((s.args.take i).countP fun o2 => (s.objs o2).method = (s.objs o).method) :=
  ⟨h, beginRequestRef_instance s uuid i o hnd h⟩

theorem beginRequestRef_instanceNumber_witness :
    (beginRequestRef (freshRef [0, 1, 2] fooBarObjects) "id").args[1]? = some 1 ∧
    ((beginRequestRef (freshRef [0, 1, 2] fooBarObjects) "id").objs 1).instanceNumber =
      some (((freshRef [0, 1, 2] fooBarObjects).args.take 1).countP
        fun o2 => ((freshRef [0, 1, 2] fooBarObjects).objs o2).method =
          ((freshRef [0, 1, 2] fooBarObjects).objs 1).method) :=
  beginRequestRef_instanceNumber (freshRef [0, 1, 2] fooBarObjects) "id" 1 1 (by decide) rfl

/-- C2: after `beginRequest`, for every descriptor listed in the batch the key under
which the response handler reads its result is the bare method name when the method
occurs once in the batch, and method, underscore, the descriptor's own instance number
when it occurs more than once (on distinct descriptor objects that number is the number
of earlier calls of the method); when all method names are distinct every key is the
bare method name. -/
theorem lookupKey_beginRequestRef (s : AjaxRef) (uuid : String) (i o : Nat)
    (h : s.args[i]? = some o) :
    ((beginRequestRef s uuid).objs o).method = (s.objs o).method ∧
    ((s.args.countP fun o2 => (s.objs o2).method = (s.objs o).method) = 1 →
      lookupKey (beginRequestRef s uuid).methodInstances ((beginRequestRef s uuid).objs o) =
        (s.objs o).method) ∧
    (1 < (s.args.countP fun o2 => (s.objs o2).method = (s.objs o).method) →
      ∃ k, ((beginRequestRef s uuid).objs o).instanceNumber = some k ∧
        lookupKey (beginRequestRef s uuid).methodInstances ((beginRequestRef s uuid).objs o) =
          (s.objs o).method ++ "_" ++ toString k ∧
        (s.args.Nodup →
          k = (s.args.take i).countP fun o2 => (s.objs o2).method = (s.objs o).method)) ∧
    ((s.args.map fun o2 => (s.objs o2).method).Nodup →
      lookupKey (beginRequestRef s uuid).methodInstances ((beginRequestRef s uuid).objs o) =
        (s.objs o).method) := by
  have hm := beginRequestRef_method s uuid o
  have hmem : o ∈ s.args := List.getElem?_mem h
  have hcnt : (s.args.map fun o2 => (s.objs o2).method).count (s.objs o).method =
      s.args.countP fun o2 => (s.objs o2).method = (s.objs o).method := by
    have := count_method_deref s s.args (s.objs o).method
    rwa [List.map_map] at this
  have hagree := beginRequestRef_countersAgree s uuid (s.objs o).method
  rw [hcnt] at hagree
  have hone : (s.args.countP fun o2 => (s.objs o2).method = (s.objs o).method) = 1 →
      lookupKey (beginRequestRef s uuid).methodInstances ((beginRequestRef s uuid).objs o) =
        (s.objs o).method := by
    intro h1
    rw [← hm]
    apply lookupKey_of_lookup_zero
    rw [hm, hagree, h1]
    rfl
  refine ⟨hm, hone, ?_, ?_⟩
  · intro h1
    obtain ⟨k, hk⟩ := beginRequestRef_numbered s uuid o hmem
    refine ⟨k, hk, ?_, ?_⟩
    · rw [← hm]
      apply lookupKey_of_lookup_pos _ _
        ((s.args.countP fun o2 => (s.objs o2).method = (s.objs o).method) - 2) _ _ hk
      rw [hm, hagree, if_neg (by omega)]
      congr 1
      omega
    · intro hnd
      have := beginRequestRef_instance s uuid i o hnd h
      rw [hk] at this
      exact Option.some.inj this
  · intro hnd
    apply hone
    rw [← hcnt]
    exact List.count_eq_one_of_mem hnd
      (List.mem_map.mpr ⟨o, hmem, rfl⟩)

theorem lookupKey_beginRequestRef_witness :
    ((beginRequestRef (freshRef [0, 1, 2] fooBarObjects) "id").objs 1).instanceNumber =
        some 1 ∧
      lookupKey (beginRequestRef (freshRef [0, 1, 2] fooBarObjects) "id").methodInstances
          ((beginRequestRef (freshRef [0, 1, 2] fooBarObjects) "id").objs 1) =
        "Foo.Bar" ++ "_" ++ toString 1 := by
  obtain ⟨k, hk, hkey, hcount⟩ :=
    (lookupKey_beginRequestRef (freshRef [0, 1, 2] fooBarObjects) "id" 1 1 rfl).2.2.1
      (by decide)
  have h1 : k = 1 := hcount (by decide)
  subst h1
  exact ⟨hk, hkey⟩

/-- C3 (amended): for a batch of two calls that are distinct descriptor objects, both
with method `Foo.Bar` and each with a procedure that returns, on a 200 response the
first callback is invoked with the entry under `Foo.Bar_0` and the second with the
entry under `Foo.Bar_1`, each together with the whole response object. -/
theorem twoCalls_readyStateChangeRef {J : Type} (parse : String → Option (Envelope J))
    (s : AjaxRef) (uuid : String) (o1 o2 : Nat) (r : Transport) (all : Envelope J)
    (hs : s.args = [o1, o2]) (hne : o1 ≠ o2)
    (h1 : (s.objs o1).method = "Foo.Bar") (h2 : (s.objs o2).method = "Foo.Bar")
    (hr1 : (s.objs o1).returns) (hr2 : (s.objs o2).returns)
    (h4 : r.readyState = 4) (h200 : r.status = 200)
    (hp : parse r.responseText = some all) :
    readyStateChangeRef parse (beginRequestRef s uuid) r =
      Except.ok [Effect.call 0 (s.objs o1).context (all.lookup "Foo.Bar_0") all,
        Effect.call 1 (s.objs o2).context (all.lookup "Foo.Bar_1") all] := by
  have hnd : s.args.Nodup := by rw [hs]; simp [hne]
  unfold readyStateChangeRef
  rw [beginRequestRef_deref s uuid hnd]
  exact twoCalls_route parse s.deref uuid (s.objs o1) (s.objs o2) r all
    (by simp [AjaxRef.deref, hs]) h1 h2 hr1 hr2 h4 h200 hp

theorem twoCalls_readyStateChangeRef_witness :
    readyStateChangeRef (fun _ => some sampleEnvelope)
        (beginRequestRef (freshRef [0, 1] fooBarObjects) "id") okTransport =
      Except.ok [Effect.call 0 (fooBarObjects 0).context
          (sampleEnvelope.lookup "Foo.Bar_0") sampleEnvelope,
        Effect.call 1 (fooBarObjects 1).context
          (sampleEnvelope.lookup "Foo.Bar_1") sampleEnvelope] :=
  twoCalls_readyStateChangeRef (fun _ => some sampleEnvelope) (freshRef [0, 1] fooBarObjects)
    "id" 0 1 okTransport sampleEnvelope rfl (by decide) rfl rfl rfl rfl rfl rfl rfl

/-- One descriptor object listed twice: both callbacks are handed the entry under
`Foo.Bar_1`. -/
theorem listed_twice_readyStateChange :
    readyStateChangeRef (fun _ => some sampleEnvelope)
        (beginRequestRef (freshRef [0, 0] fooBarObjects) "id") okTransport =
      Except.ok [Effect.call 0 none (some 30) sampleEnvelope,
        Effect.call 1 none (some 30) sampleEnvelope] :=
  rfl

/-- C13 (amended): in a batch of distinct descriptor objects where no method name that
occurs once equals the lookup key of a call of a repeated method (the name of a method
occurring more than once, followed by an underscore and one of its instance numbers),
two different call descriptors have different result lookup keys. -/
theorem lookupKey_injectiveRef (s : AjaxRef) (uuid : String) (hnd : s.args.Nodup)
    (hyp : ∀ m ∈ s.args.map (fun o => (s.objs o).method),
      1 < (s.args.map fun o => (s.objs o).method).count m →
      ∀ n ∈ s.args.map (fun o => (s.objs o).method),
      (s.args.map fun o => (s.objs o).method).count n = 1 →
      ∀ k < (s.args.map fun o => (s.objs o).method).count m, n ≠ m ++ "_" ++ toString k)
    (i j o1 o2 : Nat) (hi : s.args[i]? = some o1) (hj : s.args[j]? = some o2)
    (hij : i ≠ j) :
    lookupKey (beginRequestRef s uuid).methodInstances ((beginRequestRef s uuid).objs o1) ≠
      lookupKey (beginRequestRef s uuid).methodInstances
        ((beginRequestRef s uuid).objs o2) := by
  have hd := beginRequestRef_deref s uuid hnd
  have hmi : (beginRequestRef s uuid).methodInstances =
      (beginRequest s.deref uuid).methodInstances := by
    rw [← hd]; rfl
  have hget : ∀ (k o : Nat), s.args[k]? = some o →
      (beginRequest s.deref uuid).args[k]? = some ((beginRequestRef s uuid).objs o) := by
    intro k o hk
    rw [← hd]
    show ((beginRequestRef s uuid).args.map (beginRequestRef s uuid).objs)[k]? = _
    have : (beginRequestRef s uuid).args = s.args := rfl
    simp [this, hk]
  have hmeth : s.deref.args.map Call.method = s.args.map fun o => (s.objs o).method := by
    simp [AjaxRef.deref, Function.comp_def]
  have hlen : s.deref.args.length = s.args.length := by simp [AjaxRef.deref]
  rw [hmi]
  rcases Nat.lt_or_gt_of_ne hij with h | h
  · exact lookupKey_ne_of_lt s.deref uuid (by rw [hmeth]; exact hyp) i j _ _
      (hget i o1 hi) (hget j o2 hj) h
  · exact (lookupKey_ne_of_lt s.deref uuid (by rw [hmeth]; exact hyp) j i _ _
      (hget j o2 hj) (hget i o1 hi) h).symm

theorem lookupKey_injectiveRef_witness :
    lookupKey (beginRequestRef (freshRef [0, 1, 2] fooBarObjects) "id").methodInstances
        ((beginRequestRef (freshRef [0, 1, 2] fooBarObjects) "id").objs 0) ≠
      lookupKey (beginRequestRef (freshRef [0, 1, 2] fooBarObjects) "id").methodInstances
        ((beginRequestRef (freshRef [0, 1, 2] fooBarObjects) "id").objs 1) :=
  lookupKey_injectiveRef (freshRef [0, 1, 2] fooBarObjects) "id" (by decide) (by decide)
    0 1 0 1 rfl rfl (by decide)

/-- One descriptor object listed twice reads one key at both indices. -/
theorem listed_twice_keys :
    (beginRequestRef (freshRef [0, 0] fooBarObjects) "id").deref.args.map
        (lookupKey (beginRequestRef (freshRef [0, 0] fooBarObjects) "id").methodInstances) =
      ["Foo.Bar_1", "Foo.Bar_1"] :=
  rfl

/-! ## File references are replaced -/

theorem handles_ne_nil_of_wellFormed (p : Param) (hwf : p.wellFormed = true)
    (hfile : p.hasFile = true) : p.handles ≠ [] := by
  cases p with
  | scalar v => simp [Param.hasFile] at hfile
  | file f => simpa [Param.wellFormed, Param.handles] using hwf
  | array items =>
    simp only [Param.hasFile, List.any_eq_true] at hfile
    simp only [Param.wellFormed, List.all_eq_true] at hwf
    obtain ⟨it, hit, hisFile⟩ := hfile
    have hw := hwf it hit
    intro hnil
    simp only [Param.handles, List.flatMap_eq_nil_iff] at hnil
    have hn := hnil it hit
    cases it with
    | scalar v => simp [Item.isFile] at hisFile
    | file f =>
      simp only [Item.wellFormed, decide_eq_true_eq] at hw
      exact hw hn

theorem substParam_of_handles_ne_nil (m : String) (inst : Option Nat) (p : Param)
    (h : p.handles ≠ []) :
    substParam m inst p =
      Param.scalar (Scalar.str (String.join ((paramPairs m inst p).map Prod.snd))) := by
  unfold substParam
  rw [if_pos]
  rw [paramPairs_length]
  exact List.length_pos.mpr h

/-- C9: for every batch whose parameters are scalars, file references (inputs carrying
one or more file handles) or arrays of these, the map serialized by `beginRequest`
contains no raw file reference: no top-level parameter of an entry is a file input and
no array parameter contains one; every parameter that was or contained a file reference
has been replaced by a string, the identifiers written for its files joined. -/
theorem serialized_map_has_no_file (s : Ajax) (uuid : String)
    (hwf : ∀ a ∈ s.args, ∀ p ∈ a.parameters, p.wellFormed = true) :
    (∀ e ∈ resolveMap (beginRequest s uuid).args (beginRequest s uuid).map,
        ∀ p ∈ e.2, p.hasFile = false) ∧
      ∀ (i t : Nat) (a : Call) (p : Param), s.args[i]? = some a →
        a.parameters[t]? = some p → p.hasFile = true →
        ∃ (e : String × List Param) (ids : List String),
          (resolveMap (beginRequest s uuid).args (beginRequest s uuid).map)[i]? = some e ∧
          e.2[t]? = some (Param.scalar (Scalar.str (String.join ids))) := by
  constructor
  · exact (serialized_map_has_no_file_iff s uuid).mpr
      (fun a ha p hp hfile => handles_ne_nil_of_wellFormed p (hwf a ha p hp) hfile)
  · intro i t a p ha hp hfile
    have hne := handles_ne_nil_of_wellFormed p
      (hwf a (List.getElem?_mem ha) p (List.getElem?_mem hp)) hfile
    refine ⟨(a.method, a.parameters.map
        (substParam a.method (some (instanceAt s.args i a)))),
      (paramPairs a.method (some (instanceAt s.args i a)) p).map Prod.snd, ?_, ?_⟩
    · simp [beginRequest_resolveMap, numbered_getElem?, ha]
    · simp only [List.getElem?_map, hp, Option.map_some']
      rw [substParam_of_handles_ne_nil _ _ p hne]

theorem serialized_map_has_no_file_witness :
    (∀ e ∈ resolveMap (beginRequest (fresh uploadFilesExample) "id").args
          (beginRequest (fresh uploadFilesExample) "id").map,
        ∀ p ∈ e.2, p.hasFile = false) ∧
      ∀ (i t : Nat) (a : Call) (p : Param), (fresh uploadFilesExample).args[i]? = some a →
        a.parameters[t]? = some p → p.hasFile = true →
        ∃ (e : String × List Param) (ids : List String),
          (resolveMap (beginRequest (fresh uploadFilesExample) "id").args
            (beginRequest (fresh uploadFilesExample) "id").map)[i]? = some e ∧
          e.2[t]? = some (Param.scalar (Scalar.str (String.join ids))) :=
  serialized_map_has_no_file (fresh uploadFilesExample) "id" (by decide)

end Nina
